import Mathlib

set_option maxRecDepth 2048

/-!
Verification development for the Fore_Ai trading bot
(`signal_parser.py`, `fore_ai_bot.py`).

Prices, lots and take-profit levels are modelled as rationals (`ℚ`); the
inputs exercised below (integer and short-decimal quotes) are exactly
representable in binary floating point, so exact rational arithmetic agrees
with the Python evaluation on them.  Python's `round(x, d)` and `f"{x:.2f}"`
both round half-to-even at the given decimal place, modelled by `rhe` /
`roundP` below.  The Python regular expressions of the parser are embedded
via a small backtracking regex engine (`RE` / `mrun`) with Python's greedy,
leftmost-search semantics; each pattern in the source is transcribed node by
node.
-/

/-- Tolerance used by the zone ladder loop (`1e-9` in the source). -/
def eps9 : ℚ := 1 / 1000000000

/-- Tolerance used by the trailing-stop monotonicity guard (`1e-7`). -/
def eps7 : ℚ := 1 / 10000000

/-- Computable floor of a rational (agrees with `⌊x⌋`, see `qfloor_eq`;
Mathlib's `⌊⌋` does not reduce in the kernel). -/
def qfloor (x : ℚ) : ℤ := Rat.floor x

/-- Computable ceiling of a rational (agrees with `⌈x⌉`, see `qceil_eq`). -/
def qceil (x : ℚ) : ℤ := -qfloor (-x)

/-- Round half to even to the nearest integer (Python `round` on exact
decimal values). -/
def rhe (x : ℚ) : ℤ :=
  let f := qfloor x
  let r := x - (f : ℚ)
  if r < 1 / 2 then f
  else if 1 / 2 < r then f + 1
  else if f % 2 = 0 then f else f + 1

/-- Python `round(x, d)` on exact decimal inputs: round half to even at `d`
decimal places.  Also models `f"{x:.2f}"` with `d = 2`. -/
def roundP (d : ℕ) (x : ℚ) : ℚ :=
  ((rhe (x * (10 : ℚ) ^ d) : ℚ)) / (10 : ℚ) ^ d

/-- Python `int()` on a rational value: truncation toward zero. -/
def pyInt (x : ℚ) : ℤ :=
  if 0 ≤ x then qfloor x else qceil x

/-- Insert into a strictly increasing list, dropping duplicates. -/
def insDedup (x : ℚ) : List ℚ → List ℚ
  | [] => [x]
  | y :: ys => if x = y then y :: ys else if y < x then y :: insDedup x ys else x :: y :: ys

/-- Python `sorted(set(xs))`: the strictly increasing enumeration of the
distinct elements. -/
def sortDedup (xs : List ℚ) : List ℚ :=
  xs.foldl (fun acc x => insDedup x acc) []

/-! ## Regex engine

A direct embedding of the (small) fragment of Python `re` used by the
source: character classes, concatenation, alternation, greedy `*`/`+`/`?`,
capturing groups and the word boundary `\b`.  Matching is
backtracking-greedy exactly as in Python; `search` is leftmost, `findall`
is non-overlapping continuing at each match end (all patterns in the source
match at least one character, so the zero-width-advance case of Python
`findall` never arises).  The `star` loop refuses empty iterations, which
agrees with Python on these patterns since every starred subpattern here
consumes at least one character. -/

inductive RE where
  | eps
  | cls (p : Char → Bool)
  | seq (a b : RE)
  | alt (a b : RE)
  | star (a : RE)
  | group (i : Nat) (a : RE)
  | wordB

/-- Greedy `a?`. -/
def RE.opt (a : RE) : RE := RE.alt a RE.eps

/-- Greedy `a+`. -/
def RE.plus (a : RE) : RE := RE.seq a (RE.star a)

/-- Concatenation of a list of nodes. -/
def rcat (rs : List RE) : RE := rs.foldr RE.seq RE.eps

/-- Case-sensitive literal character. -/
def rlit (c : Char) : RE := RE.cls (fun x => x = c)

/-- Case-insensitive literal character (`re.I`). -/
def rlitI (c : Char) : RE := RE.cls (fun x => x.toLower = c.toLower)

/-- Case-insensitive literal string. -/
def rstrI (s : String) : RE := rcat (s.toList.map rlitI)

/-- Character from an explicit set. -/
def rset (cs : List Char) : RE := RE.cls (fun c => cs.contains c)

/-- Python `\d` / `[0-9]`. -/
def dcls : RE := RE.cls (fun c => c.isDigit)

/-- Python `\s` (ASCII fragment; all inputs considered are ASCII). -/
def isSpacePy (c : Char) : Bool :=
  c = ' ' || c = '\t' || c = '\n' || c = '\r' || c = '\x0b' || c = '\x0c'

/-- Python `\w` (ASCII fragment). -/
def isWordPy (c : Char) : Bool := c.isAlphanum || c = '_'

/-- `\s*` -/
def sstar : RE := RE.star (RE.cls isSpacePy)

/-- `\s+` -/
def splus : RE := RE.plus (RE.cls isSpacePy)

/-- Captures recorded during a match: group index ↦ matched characters. -/
abbrev Caps := List (Nat × List Char)

/-- A successful match: the remaining input after the match, the character
just before that remainder (for `\b`), and the captures. -/
structure MRes where
  rest : List Char
  prevC : Option Char
  caps : Caps

/-- Word-boundary test between the previous character and the next. -/
def atWordB (prev : Option Char) (s : List Char) : Bool :=
  let wl := match prev with | some c => isWordPy c | none => false
  let wr := match s with | c :: _ => isWordPy c | [] => false
  wl != wr

/-- Backtracking matcher in continuation style.  Alternatives and the
greedy `star` try the longer/left option first, as Python does.  `fuel`
only bounds the recursion depth; it is chosen large enough by the wrappers
below that it never runs out on the inputs considered. -/
def mrun : Nat → RE → Option Char → List Char → Caps →
    (Option Char → List Char → Caps → Option MRes) → Option MRes
  | 0, _, _, _, _, _ => none
  | fuel + 1, r, prev, s, caps, k =>
    match r with
    | RE.eps => k prev s caps
    | RE.cls p =>
      match s with
      | [] => none
      | c :: rest => if p c then k (some c) rest caps else none
    | RE.seq a b =>
      mrun fuel a prev s caps (fun p2 s2 c2 => mrun fuel b p2 s2 c2 k)
    | RE.alt a b =>
      match mrun fuel a prev s caps k with
      | some m => some m
      | none => mrun fuel b prev s caps k
    | RE.star a =>
      match mrun fuel a prev s caps
          (fun p2 s2 c2 =>
            if s2.length < s.length then mrun fuel (RE.star a) p2 s2 c2 k
            else none) with
      | some m => some m
      | none => k prev s caps
    | RE.group i a =>
      mrun fuel a prev s caps
        (fun p2 s2 c2 => k p2 s2 ((i, s.take (s.length - s2.length)) :: c2))
    | RE.wordB => if atWordB prev s then k prev s caps else none

/-- Recursion-depth bound that is generous for every pattern in the source
(pattern sizes are ≤ 40 nodes and each engine step consumes input or
descends one node). -/
def fuelFor (s : List Char) : Nat := 64 * (s.length + 8)

/-- `re.search` from a given position onwards: leftmost match wins. -/
def searchLoop (fuel : Nat) (re : RE) : Option Char → List Char → Option MRes
  | prev, s =>
    match mrun fuel re prev s [] (fun p r c => some ⟨r, p, c⟩) with
    | some m => some m
    | none =>
      match s with
      | [] => none
      | c :: rest => searchLoop fuel re (some c) rest

/-- `pattern.search(text)`. -/
def reSearch (re : RE) (s : List Char) : Option MRes :=
  searchLoop (fuelFor s) re none s

/-- `pattern.findall(text)`: non-overlapping matches, left to right. -/
def findAllLoop (fuel : Nat) (re : RE) : Nat → Option Char → List Char → List Caps
  | 0, _, _ => []
  | n + 1, prev, s =>
    match searchLoop fuel re prev s with
    | none => []
    | some m => m.caps :: findAllLoop fuel re n m.prevC m.rest

/-- `pattern.findall(text)`. -/
def reFindAll (re : RE) (s : List Char) : List Caps :=
  findAllLoop (fuelFor s) re (s.length + 1) none s

/-- The text captured by group `i` (first/only capture of that group). -/
def capGet (caps : Caps) (i : Nat) : List Char :=
  (((caps.find? (fun kv => kv.1 = i)).map Prod.snd)).getD []

/-! ## Numeric and string helpers mirroring Python builtins -/

/-- Digits to a natural number (`int(s)` on a digit string). -/
def natOfDigits (cs : List Char) : ℕ :=
  cs.foldl (fun a c => 10 * a + (c.toNat - Char.toNat '0')) 0

/-- `float(s)` on a string matched by the numeric subpatterns of the
source: optional integer digits, optional `.` plus fraction digits. -/
def parseDec (cs : List Char) : ℚ :=
  let ip := cs.takeWhile (fun c => c.isDigit)
  let rest := cs.drop ip.length
  match rest with
  | '.' :: fp => (natOfDigits ip : ℚ) + (natOfDigits fp : ℚ) / (10 : ℚ) ^ fp.length
  | _ => (natOfDigits ip : ℚ)

/-- `s.upper()` (ASCII). -/
def pyUpper (s : String) : String := String.mk (s.toList.map Char.toUpper)

/-- Python `s.strip()`: drop leading and trailing whitespace. -/
def pyStrip (cs : List Char) : List Char :=
  ((cs.dropWhile isSpacePy).reverse.dropWhile isSpacePy).reverse

/-- `s.strip().lower()` on a character list. -/
def stripLower (cs : List Char) : List Char :=
  (pyStrip cs).map Char.toLower

/-- Python `s.startswith(prefix)`. -/
def pyStartsWith (cs pre : List Char) : Bool :=
  pre.isPrefixOf cs

/-- Python `s.split()` (no argument): split on whitespace runs, dropping
empty pieces; `acc` carries the current word reversed. -/
def splitWsAux : List Char → List Char → List (List Char)
  | [], acc => if acc = [] then [] else [ acc.reverse ]
  | c :: rest, acc =>
    if isSpacePy c then
      if acc = [] then splitWsAux rest [] else acc.reverse :: splitWsAux rest []
    else splitWsAux rest (c :: acc)

/-! ## signal_parser.py -/

/-- Stable insertion into a list sorted by first component (equal keys keep
their relative order). -/
def insByIdx (x : ℕ × Option ℚ) : List (ℕ × Option ℚ) → List (ℕ × Option ℚ)
  | [] => [x]
  | y :: ys => if y.1 ≤ x.1 then y :: insByIdx x ys else x :: y :: ys

/-- Python's stable `tp_pairs.sort(key=lambda x: x[0])`. -/
def sortPairsByIdx (l : List (ℕ × Option ℚ)) : List (ℕ × Option ℚ) :=
  l.foldl (fun acc x => insByIdx x acc) []

/-- `ParsedSignal` from `signal_parser.py` (prices as exact rationals). -/
structure ParsedSignal where
  symbol : String
  direction : String
  lot_size : ℚ
  zone_low : ℚ
  zone_high : ℚ
  stop_loss : ℚ
  take_profits : List (Option ℚ)
  original_text : String
  deriving DecidableEq, Repr

/-- `_re_lot = re.compile(r"lot\s*size\s*[:\-]?\s*([0-9]*\.?[0-9]+)", re.I)` -/
def reLot : RE :=
  rcat [rstrI "lot", sstar, rstrI "size", sstar, RE.opt (rset [':', '-']), sstar,
    RE.group 1 (rcat [RE.star dcls, RE.opt (rlit '.'), RE.plus dcls])]

/-- `_re_pair_dir = re.compile(r"([A-Z0-9]+)\s+LOOKING\s+(BUY|SELL)\s+THIS\s+ZONE", re.I)` -/
def rePair : RE :=
  rcat [RE.group 1 (RE.plus (RE.cls (fun c =>
      (('A' ≤ c.toUpper && c.toUpper ≤ 'Z') || c.isDigit)))),
    splus, rstrI "LOOKING", splus,
    RE.group 2 (RE.alt (rstrI "BUY") (rstrI "SELL")),
    splus, rstrI "THIS", splus, rstrI "ZONE"]

/-- `\d+(?:\.\d+)?` -/
def rnum : RE := rcat [RE.plus dcls, RE.opt (rcat [rlit '.', RE.plus dcls])]

/-- `_re_zone = re.compile(r"(\d+(?:\.\d+)?)\s*/\s*(\d+(?:\.\d+)?)")` -/
def reZone : RE :=
  rcat [RE.group 1 rnum, sstar, rlit '/', sstar, RE.group 2 rnum]

/-- `_re_sl = re.compile(r"SL\s*[:\-]?\s*(\d+(?:\.\d+)?)", re.I)` -/
def reSl : RE :=
  rcat [rstrI "SL", sstar, RE.opt (rset [':', '-']), sstar, RE.group 1 rnum]

/-- `_re_tp = re.compile(r"TP\s*([1-9][0-9]*)\s*[:\-]?\s*([0-9]+(?:\.[0-9]+)?|open)", re.I)` -/
def reTp : RE :=
  rcat [rstrI "TP", sstar,
    RE.group 1 (rcat [RE.cls (fun c => '1' ≤ c && c ≤ '9'), RE.star dcls]),
    sstar, RE.opt (rset [':', '-']), sstar,
    RE.group 2 (RE.alt rnum (rstrI "open"))]

/-- `parse_signal` from `signal_parser.py`.  Mirrors the source line by
line: lot is optional, pair/zone/SL/TPs are required, TPs are sorted by
their explicit index (stable), `open` becomes `none`. -/
def parseSignal (text : String) : Option ParsedSignal :=
  let s := text.toList
  if s.isEmpty then none
  else
    let m_lot := reSearch reLot s
    match reSearch rePair s, reSearch reZone s, reSearch reSl s, reFindAll reTp s with
    | some m_pair, some m_zone, some m_sl, tps =>
      if tps.isEmpty then none
      else
        let lot : ℚ := match m_lot with
          | some ml => parseDec (capGet ml.caps 1)
          | none => 0
        let symbol := pyUpper (String.mk (capGet m_pair.caps 1))
        let direction := pyUpper (String.mk (capGet m_pair.caps 2))
        let z1 := parseDec (capGet m_zone.caps 1)
        let z2 := parseDec (capGet m_zone.caps 2)
        let zone_low := min z1 z2
        let zone_high := max z1 z2
        let sl := parseDec (capGet m_sl.caps 1)
        let tp_pairs : List (ℕ × Option ℚ) := tps.map (fun c =>
          (natOfDigits (capGet c 1),
            if stripLower (capGet c 2) = [ 'o', 'p', 'e', 'n' ] then none
            else some (parseDec (capGet c 2))))
        let sorted := sortPairsByIdx tp_pairs
        let tp_values := sorted.map Prod.snd
        some ⟨symbol, direction, lot, zone_low, zone_high, sl, tp_values, text⟩
    | _, _, _, _ => none

/-! ## Ladder planner (`place_orders_from_signal`, lines 353-367, 383-396)

The price loop `p = hi; while p >= lo - 1e-9: prices.append(round_price(symbol, p)); p -= 1.0`
is modelled with an explicit iteration bound (`fuel`) chosen at the call
site to exceed the number of iterations of the source loop.  `round_price`
rounds to the venue's digit count for the resolved symbol, passed here as
the parameter `d`. -/

/-- BUY branch of the zone loop: start at `hi`, step down by `1.0`,
inclusive of `lo` within `1e-9`. -/
def buyLoop (d : ℕ) (lo : ℚ) : ℕ → ℚ → List ℚ
  | 0, _ => []
  | fuel + 1, p =>
    if lo - eps9 ≤ p then roundP d p :: buyLoop d lo fuel (p - 1) else []

/-- SELL branch: start at `lo`, step up by `1.0`, inclusive of `hi` within
`1e-9`. -/
def sellLoop (d : ℕ) (hi : ℚ) : ℕ → ℚ → List ℚ
  | 0, _ => []
  | fuel + 1, p =>
    if p ≤ hi + eps9 then roundP d p :: sellLoop d hi fuel (p + 1) else []

/-- The rung prices produced by `place_orders_from_signal` for a zone
`[lo, hi]`.  The iteration bound `⌈hi-lo⌉+2` strictly exceeds the
`⌊hi-lo+1e-9⌋+1` iterations the source loop performs. -/
def ladderPrices (d : ℕ) (direction : String) (lo hi : ℚ) : List ℚ :=
  if direction = "BUY" then buyLoop d lo ((qceil (hi - lo)).toNat + 2) hi
  else sellLoop d hi ((qceil (hi - lo)).toNat + 2) lo

/-- The planned rungs: each price paired with its take-profit.
`numeric_tps = [tp for tp in sig.take_profits if tp is not None]` and rung
`idx` gets `numeric_tps[idx] if idx < len(numeric_tps) else None`
(lines 384, 395-396). -/
def planRungs (d : ℕ) (sig : ParsedSignal) : List (ℚ × Option ℚ) :=
  let prices := ladderPrices d sig.direction sig.zone_low sig.zone_high
  let numeric := sig.take_profits.filterMap id
  prices.enum.map (fun ip => (ip.2, numeric.get? ip.1))

/-! ## Lot snapping (`adjust_lot_for_symbol`, lines 408-423) -/

/-- `adjust_lot_for_symbol` for an instrument with known volume step, min
and max: truncate to a whole number of steps (`int(lot / step)`), clamp
into `[min, max]`, then `float(f"{adj:.2f}")` (round half-even to two
decimals). -/
def adjustLot (volume_step volume_min volume_max lot : ℚ) : ℚ :=
  let steps : ℤ := pyInt (lot / volume_step)
  let adj0 : ℚ := (steps : ℚ) * volume_step
  let adj1 := if adj0 < volume_min then volume_min else adj0
  let adj2 := if adj1 > volume_max then volume_max else adj1
  roundP 2 adj2

/-! ## Symbol resolution (`resolve_symbol`, `resolve_symbol_strict`)

`mt5.symbol_info` is abstracted as `venue : String → Bool` (whether the
venue recognizes the symbol); the `symbol_select` visibility side effect
has no bearing on the returned name. -/

/-- `resolve_symbol` (lines 166-177): candidates are
`[sig+suffix if suffix else sig, sig, SYMBOL_DEFAULT]`; the first venue-
recognized candidate is returned, else `SYMBOL_DEFAULT` regardless. -/
def resolveSymbol (venue : String → Bool) (suffix defaultSym sig_symbol : String) : String :=
  let cand := [if suffix ≠ "" then sig_symbol ++ suffix else sig_symbol, sig_symbol, defaultSym]
  match cand.find? venue with
  | some s => s
  | none => defaultSym

/-- `resolve_symbol_strict` (lines 180-197): uppercased/stripped base,
candidates `[base+suffix if suffix else base, base]`, no fallback. -/
def resolveSymbolStrict (venue : String → Bool) (suffix sig_symbol : String) : Option String :=
  let base := pyUpper (String.mk (pyStrip sig_symbol.toList))
  if base = "" then none
  else ([if suffix ≠ "" then base ++ suffix else base, base]).find? venue

/-! ## Ownership filters (`cancel_all_pending` lines 253-268,
`close_all_positions` lines 296-308) -/

/-- A broker pending order, reduced to the fields the filter reads. -/
structure MOrder where
  magic : ℤ
  comment : String
  deriving DecidableEq

/-- A broker open position, reduced to the fields the filter reads. -/
structure MPosition where
  magic : ℤ
  profit : ℚ
  comment : String
  deriving DecidableEq

/-- Ownership test used by `cancel_all_pending` when not including all
magics: `mg == MAGIC or cm.startswith(f'{BRAND_PREFIX}-') or
cm.startswith('MazharBot-')` with `BRAND_PREFIX = "ForeAi"` (line 267). -/
def cancelOwned (magicCfg : ℤ) (o : MOrder) : Bool :=
  o.magic = magicCfg || pyStartsWith o.comment.toList ("ForeAi-".toList)
    || pyStartsWith o.comment.toList ("MazharBot-".toList)

/-- The orders `cancel_all_pending` selects for removal. -/
def cancelSelect (magicCfg : ℤ) (include_all_magics : Bool) (orders : List MOrder) :
    List MOrder :=
  if include_all_magics then orders else orders.filter (cancelOwned magicCfg)

/-- The position filter of `close_all_positions` (the `continue` chain of
lines 299-308): magic-only ownership test, then the profit-sign filter. -/
def closeKeep (magicCfg : ℤ) (include_all_magics : Bool) (only_profit : Option Bool)
    (p : MPosition) : Bool :=
  if ¬ include_all_magics ∧ p.magic ≠ magicCfg then false
  else if only_profit = some true ∧ ¬ (p.profit > 0) then false
  else if only_profit = some false ∧ ¬ (p.profit < 0) then false
  else true

/-- The positions `close_all_positions` selects for closing. -/
def closeSelect (magicCfg : ℤ) (include_all_magics : Bool) (only_profit : Option Bool)
    (ps : List MPosition) : List MPosition :=
  ps.filter (closeKeep magicCfg include_all_magics only_profit)

/-! ## TP ladder store (`TP_LADDERS`, `_save_tp_ladders`, `_load_tp_ladders`) -/

/-- Key of the in-memory ladder map: `(symbol, 'BUY'|'SELL')`. -/
abbrev LKey := String × String

/-- The in-memory `TP_LADDERS` dict, as an association list with unique
keys (maintained by `setKey`). -/
abbrev LMap := List (LKey × List ℚ)

/-- Python dict assignment `d[k] = v`: replace in place or append. -/
def setKey : LMap → LKey → List ℚ → LMap
  | [], k, v => [(k, v)]
  | (k', v') :: rest, k, v =>
    if k' = k then (k, v) :: rest else (k', v') :: setKey rest k v

/-- Python dict lookup `d.get(k)`. -/
def lookupKey (m : LMap) (k : LKey) : Option (List ℚ) :=
  (m.find? (fun e => e.1 = k)).map Prod.snd

/-- `TP_LADDERS[(sym, dir)] = sorted(set(tps))` (lines 387, 806). -/
def recordLadder (m : LMap) (sym dir : String) (tps : List ℚ) : LMap :=
  setKey m (sym, dir) (sortDedup tps)

/-- `_save_tp_ladders` (lines 83-89): the persisted JSON object, an ordered
list of `("<sym>|<dir>", values)` pairs keeping only non-empty ladders. -/
def saveTp (m : LMap) : List (String × List ℚ) :=
  m.filterMap (fun e => if e.2 ≠ [] then some (e.1.1 ++ "|" ++ e.1.2, e.2) else none)

/-- A JSON scalar as found in the persisted file: a number, or something
else (modelled as a string) that `float()` may fail on. -/
inductive PyVal where
  | num (q : ℚ)
  | str (s : String)
  deriving DecidableEq

/-- `float(x)` on a JSON scalar (decimal fragment: digit strings with at
most one dot parse; anything else raises, i.e. `none`). -/
def pyFloat? : PyVal → Option ℚ
  | PyVal.num q => some q
  | PyVal.str s =>
    let cs := s.toList
    if cs ≠ [] ∧ cs.all (fun c => c.isDigit || c = '.')
        ∧ (cs.filter (fun c => c = '.')).length ≤ 1 ∧ cs ≠ [ '.' ] then
      some (parseDec cs)
    else none

/-- `[float(x) for x in v]`: all-or-nothing (a single bad element raises,
aborting the whole entry). -/
def traverseFloats : List PyVal → Option (List ℚ)
  | [] => some []
  | v :: rest =>
    match pyFloat? v, traverseFloats rest with
    | some q, some qs => some (q :: qs)
    | _, _ => none

/-- `k.split("|", 1)`: split at the first `|`; `none` when there is no `|`
(in the source the two-name unpacking then raises and the entry is
skipped). -/
def splitBarL : List Char → Option (List Char × List Char)
  | [] => none
  | c :: rest =>
    if c = '|' then some ([], rest)
    else
      match splitBarL rest with
      | some (a, b) => some (c :: a, b)
      | none => none

/-- Parsing of one persisted entry: split the key at the first `|` and
parse every value with `float`; `none` when either step fails (in the
source the exception is caught and the entry skipped). -/
def parseEntry (e : String × List PyVal) : Option (LKey × List ℚ) :=
  match splitBarL e.1.toList with
  | none => none
  | some (a, b) =>
    match traverseFloats e.2 with
    | none => none
    | some vals => some ((String.mk a, String.mk b), vals)

/-- `_load_tp_ladders` (lines 91-105): fold the persisted entries into the
map; an entry whose key has no `|` or whose values do not all parse is
skipped (`except: continue`), an empty value list is not stored. -/
def loadTp : List (String × List PyVal) → LMap → LMap
  | [], m => m
  | e :: rest, m =>
    loadTp rest
      (match parseEntry e with
        | none => m
        | some (k, vals) => if vals ≠ [] then setKey m k vals else m)

/-- Persisted numbers re-read as JSON numbers. -/
def numFile (l : List (String × List ℚ)) : List (String × List PyVal) :=
  l.map (fun e => (e.1, e.2.map PyVal.num))

/-! ## Trailing-stop engine (`maintain_trailing_stops`, lines 446-518) -/

/-- A live quote (`mt5.symbol_info_tick`). -/
structure Tick where
  bid : ℚ
  ask : ℚ
  deriving DecidableEq

/-- Reference price: bid for a BUY position, ask for a SELL position
(lines 467-472). -/
def refPrice (direction : String) (t : Tick) : ℚ :=
  if direction = "BUY" then t.bid else t.ask

/-- `achieved = sum(1 for tp in ladder_sorted if current >= tp)` for BUY,
`<=` for SELL (lines 480-482); `ladder_sorted` is already sorted and
de-duplicated. -/
def achievedCount (direction : String) (ladder_sorted : List ℚ) (current : ℚ) : ℕ :=
  if direction = "BUY" then (ladder_sorted.filter (fun tp => current ≥ tp)).length
  else (ladder_sorted.filter (fun tp => current ≤ tp)).length

/-- The raw trailing target (lines 478-488): `none` when no level is
achieved; break-even (the position's open price) after one level; the
ladder value at index `achieved-2` after two or more.  The index is always
in range, so the `getD` default is never used. -/
def trailTarget (direction : String) (ladder : List ℚ) (price_open current : ℚ) :
    Option ℚ :=
  let ls := sortDedup ladder
  let achieved := achievedCount direction ls current
  if achieved ≤ 0 then none
  else if achieved = 1 then some price_open
  else some (ls.getD (achieved - 2) 0)

/-- One trailing pass over a single position (lines 475-503): `none` means
no stop modification is submitted; `some s` means a modify request with
stop `s` is submitted.  `cur_sl` is the position's current stop (`0` when
unset), `point` the instrument's point, `d` its digits. -/
def trailStep (d : ℕ) (point : ℚ) (direction : String) (ladder : List ℚ)
    (price_open cur_sl : ℚ) (tick : Tick) : Option ℚ :=
  let current := refPrice direction tick
  if ladder = [] then none
  else
    match trailTarget direction ladder price_open current with
    | none => none
    | some t =>
      let new_sl := roundP d t
      if direction = "BUY" then
        if new_sl ≤ cur_sl + eps7 then none
        else if new_sl ≥ current then some (roundP d (current - 2 * point))
        else some new_sl
      else
        if cur_sl > 0 ∧ new_sl ≥ cur_sl - eps7 then none
        else if new_sl ≤ current then some (roundP d (current + 2 * point))
        else some new_sl

/-- The position's stop after one trailing pass (unchanged when no modify
request is submitted or the request is rejected; a successful modify
installs the submitted stop). -/
def applyTrail (d : ℕ) (point : ℚ) (direction : String) (ladder : List ℚ)
    (price_open cur_sl : ℚ) (tick : Tick) : ℚ :=
  match trailStep d point direction ladder price_open cur_sl tick with
  | some s => s
  | none => cur_sl

/-- Repeated trailing passes over a sequence of ticks. -/
def trailRun (d : ℕ) (point : ℚ) (direction : String) (ladder : List ℚ)
    (price_open : ℚ) : ℚ → List Tick → ℚ
  | sl, [] => sl
  | sl, t :: rest =>
    trailRun d point direction ladder price_open
      (applyTrail d point direction ladder price_open sl t) rest

/-! ## Flexible order formats (`_parse_flexible_format1/2`, lines 522-591) -/

/-- Result of `_parse_flexible_format1`. -/
structure Fmt1 where
  direction : String
  entry : ℚ
  sl : ℚ
  tp : Option ℚ
  lots : ℕ
  lot_size : ℚ
  deriving DecidableEq, Repr

/-- Result of `_parse_flexible_format2`. -/
structure Fmt2 where
  direction : String
  lot_size : ℚ
  sl : ℚ
  entries : List (ℚ × Option ℚ)
  deriving DecidableEq, Repr

/-- `\blots?\s*[:=]\s*(\d+)` (re.I) -/
def reLots1 : RE :=
  rcat [RE.wordB, rstrI "lot", RE.opt (rlitI 's'), sstar, rset [':', '='], sstar,
    RE.group 1 (RE.plus dcls)]

/-- `\blot\s*size\s*[:=]\s*([0-9]*\.?[0-9]+)` (re.I), shared verbatim by
both flexible parsers. -/
def reLsize1 : RE :=
  rcat [RE.wordB, rstrI "lot", sstar, rstrI "size", sstar, rset [':', '='], sstar,
    RE.group 1 (rcat [RE.star dcls, RE.opt (rlit '.'), RE.plus dcls])]

/-- `\b(buy|sell)\s*limit\s*[:=]?\s*([0-9]+(?:\.[0-9]+)?)` (re.I) -/
def reDirEntry1 : RE :=
  rcat [RE.wordB, RE.group 1 (RE.alt (rstrI "buy") (rstrI "sell")), sstar,
    rstrI "limit", sstar, RE.opt (rset [':', '=']), sstar, RE.group 2 rnum]

/-- `\bSL\s*[:=]?\s*([0-9]+(?:\.[0-9]+)?)` (re.I), shared verbatim by both
flexible parsers. -/
def reSl1 : RE :=
  rcat [RE.wordB, rstrI "SL", sstar, RE.opt (rset [':', '=']), sstar, RE.group 1 rnum]

/-- `\bTP\s*[:=]?\s*open\b` (re.I) -/
def reTpOpen1 : RE :=
  rcat [RE.wordB, rstrI "TP", sstar, RE.opt (rset [':', '=']), sstar, rstrI "open",
    RE.wordB]

/-- `\bTP\s*[:=]?\s*([0-9]+(?:\.[0-9]+)?)` (re.I) -/
def reTpNum1 : RE :=
  rcat [RE.wordB, rstrI "TP", sstar, RE.opt (rset [':', '=']), sstar, RE.group 1 rnum]

/-- `_parse_flexible_format1` (lines 522-555). -/
def parseFlexible1 (text : String) : Option Fmt1 :=
  let s := pyStrip text.toList
  match reSearch reLots1 s, reSearch reLsize1 s, reSearch reDirEntry1 s,
      reSearch reSl1 s with
  | some m_lots, some m_lsize, some m_de, some m_sl =>
    let lots := natOfDigits (capGet m_lots.caps 1)
    let lot_size := parseDec (capGet m_lsize.caps 1)
    let direction :=
      if stripLower (capGet m_de.caps 1) = [ 'b', 'u', 'y' ] then "BUY" else "SELL"
    let entry := parseDec (capGet m_de.caps 2)
    let sl := parseDec (capGet m_sl.caps 1)
    let tp : Option ℚ :=
      match reSearch reTpOpen1 s with
      | some _ => none
      | none => (reSearch reTpNum1 s).map (fun m => parseDec (capGet m.caps 1))
    some ⟨direction, entry, sl, tp, lots, lot_size⟩
  | _, _, _, _ => none

/-- `\b(buy|sell)\s*limit\b` (re.I) -/
def reDir2 : RE :=
  rcat [RE.wordB, RE.group 1 (RE.alt (rstrI "buy") (rstrI "sell")), sstar,
    rstrI "limit", RE.wordB]

/-- `([0-9]+(?:\.[0-9]+)?)\s*[-=]*>\s*(?:tp\s*)?((?:open)|(?:[0-9]+(?:\.[0-9]+)?))`
(re.I); note `open` is the first alternative here. -/
def rePairs2 : RE :=
  rcat [RE.group 1 rnum, sstar, RE.star (rset [ '-', '=' ]), rlit '>', sstar,
    RE.opt (rcat [rstrI "tp", sstar]),
    RE.group 2 (RE.alt (rstrI "open") rnum)]

/-- `_parse_flexible_format2` (lines 558-591). -/
def parseFlexible2 (text : String) : Option Fmt2 :=
  let s := pyStrip text.toList
  match reSearch reLsize1 s, reSearch reDir2 s, reSearch reSl1 s with
  | some m_lsize, some m_dir, some m_sl =>
    let direction :=
      if stripLower (capGet m_dir.caps 1) = [ 'b', 'u', 'y' ] then "BUY" else "SELL"
    let lot_size := parseDec (capGet m_lsize.caps 1)
    let sl := parseDec (capGet m_sl.caps 1)
    let pairs := reFindAll rePairs2 s
    if pairs = [] then none
    else
      some ⟨direction, lot_size, sl,
        pairs.map (fun c =>
          (parseDec (capGet c 1),
            if stripLower (capGet c 2) = [ 'o', 'p', 'e', 'n' ] then none
            else some (parseDec (capGet c 2))))⟩
  | _, _, _ => none

/-! ## Message handling (`handle_message`, lines 595-823), restricted to
its effect on the `TP_LADDERS` map.

The chat-id gate has already admitted the message.  `/getid` and the
recognized operator commands return before parsing; a message whose first
token starts with `/` but is none of the recognized commands falls
through the command block (line 623 has no catch-all return) to the
flexible formats and `parse_signal`.  Both flexible formats submit orders
but never write `TP_LADDERS`; for a message that parses as a zone signal
the handler
records the sorted de-duplicated numeric ladder under the uppercased
signal symbol (and additionally under symbol+suffix when a suffix is
configured) before the auto-place check, and auto-placing additionally
records it under the broker-resolved symbol inside
`place_orders_from_signal`. -/

/-- Python `.lower()`. -/
def pyLower (cs : List Char) : List Char := cs.map Char.toLower

/-- The commands the inline command block handles and returns for
(lines 637, 657, 684, 721, 734; `/getid` is tested earlier on the raw
text).  Any other first token, `/`-leading or not, falls through. -/
def recognizedCmd (cmd : String) : Bool :=
  cmd = "/cancel" || cmd = "/cancelall" || cmd = "/delete" || cmd = "/close" ||
  cmd = "/closeall" || cmd = "/closeprofit" || cmd = "/closeloss" || cmd = "/kill"

/-- Ladder-map effect of `place_orders_from_signal` (lines 352, 383-390). -/
def placeOrdersLadderEffect (venue : String → Bool) (suffix defaultSym : String)
    (m : LMap) (sig : ParsedSignal) : LMap :=
  let symbol := resolveSymbol venue suffix defaultSym sig.symbol
  let numeric := sig.take_profits.filterMap id
  if numeric ≠ [] then recordLadder m symbol sig.direction numeric else m

/-- Ladder-map effect of `handle_message` on a text message. -/
def handleMessageLadders (venue : String → Bool) (suffix defaultSym : String)
    (autoPlace : Bool) (m : LMap) (text : String) : LMap :=
  let t := pyStrip text.toList
  if pyStartsWith t ("/getid".toList) then m
  else
    let parts := (splitWsAux t []).filter (fun p => p ≠ [])
    if (parts.head?.map
        (fun p => pyStartsWith p [ '/' ] && recognizedCmd (String.mk (pyLower p)))).getD
        false then m
    else if (parseFlexible1 (String.mk t)).isSome then m
    else if (parseFlexible2 (String.mk t)).isSome then m
    else
      match parseSignal (String.mk t) with
      | none => m
      | some parsed =>
        let numeric := sortDedup (parsed.take_profits.filterMap id)
        let m1 :=
          if numeric ≠ [] then
            let ma := setKey m (pyUpper parsed.symbol, parsed.direction) numeric
            if suffix ≠ "" then
              setKey ma (pyUpper parsed.symbol ++ suffix, parsed.direction) numeric
            else ma
          else m
        if autoPlace then placeOrdersLadderEffect venue suffix defaultSym m1 parsed
        else m1

/-- The end-to-end scenario text of the specification. -/
def c1text : String :=
  "XAUUSD LOOKING BUY THIS ZONE\n3463/3459\nSL 3455\nTP1 3465\nTP2 3470"

/-- The intent that text parses to. -/
def c1sig : ParsedSignal :=
  { symbol := "XAUUSD", direction := "BUY", lot_size := 0, zone_low := 3459,
    zone_high := 3463, stop_loss := 3455, take_profits := [some 3465, some 3470],
    original_text := c1text }

/-- An unrecognized-command message: the scenario text behind a `/foo`
token.  The command block computes `cmd = "/foo"`, matches nothing and
falls through to `parse_signal`. -/
def c10text : String :=
  "/foo XAUUSD LOOKING BUY THIS ZONE\n3463/3459\nSL 3455\nTP1 3465\nTP2 3470"

/-- What that message parses to: `/foo` cannot extend to a pair-direction
match, so the symbol is still XAUUSD. -/
def c10sig : ParsedSignal :=
  { symbol := "XAUUSD", direction := "BUY", lot_size := 0, zone_low := 3459,
    zone_high := 3463, stop_loss := 3455, take_profits := [some 3465, some 3470],
    original_text := c10text }

/-! ## Claim theorems -/

theorem qfloor_eq (x : ℚ) : qfloor x = ⌊x⌋ := by
  rw [qfloor, Rat.floor_def', Rat.floor_def]

theorem qceil_eq (x : ℚ) : qceil x = ⌈x⌉ := by
  rw [qceil, qfloor_eq, ← Int.ceil_neg, neg_neg]

/-- The zone ladder of the end-to-end scenario, evaluated. -/
theorem c1_ladder_eval :
    ladderPrices 2 "BUY" 3459 3463 = [3463, 3462, 3461, 3460, 3459] := by
  norm_num [ladderPrices, buyLoop, roundP, rhe, qfloor_eq, qceil_eq, eps9]

/-- C1: the message `"XAUUSD LOOKING BUY THIS ZONE\n3463/3459\nSL 3455\nTP1
3465\nTP2 3470"` parses to a BUY zone intent for XAUUSD with zone
`[3459, 3463]`, stop-loss `3455` and take-profits `[3465, 3470]`, and
planning it (unit step 1, two-digit instrument) yields exactly the five
rungs `3463, 3462, 3461, 3460, 3459` with take-profit `3465` on rung 0,
`3470` on rung 1 and no take-profit on rungs 2-4. -/
theorem c1_end_to_end :
    parseSignal c1text = some c1sig ∧
    planRungs 2 c1sig =
      [(3463, some 3465), (3462, some 3470), (3461, none), (3460, none), (3459, none)] := by
  refine ⟨by decide, ?_⟩
  show (ladderPrices 2 c1sig.direction c1sig.zone_low c1sig.zone_high).enum.map
      (fun ip => (ip.2, (c1sig.take_profits.filterMap id).get? ip.1)) = _
  rw [show c1sig.direction = "BUY" from rfl, show c1sig.zone_low = 3459 from rfl,
    show c1sig.zone_high = 3463 from rfl, c1_ladder_eval]
  decide

/-- C2: for a position with a recorded ladder and live reference price,
with `achieved` the number of sorted-ladder levels the reference price has
reached (`≥` for BUY, `≤` for SELL): no stop modification is submitted
when `achieved = 0`; the target stop is the position's entry price when
`achieved = 1`; and it is the sorted ladder value at index `achieved - 2`
when `achieved ≥ 2`.  In particular with ladder `[10, 20, 30]` and BUY
reference price exactly `20`, `achieved = 2` and the target stop is `10`. -/
theorem c2_trailing_target_rule :
    (∀ (direction : String) (ladder : List ℚ) (price_open cur_sl : ℚ) (d : ℕ)
        (point : ℚ) (tick : Tick),
      (achievedCount direction (sortDedup ladder) (refPrice direction tick) = 0 →
        trailStep d point direction ladder price_open cur_sl tick = none) ∧
      (achievedCount direction (sortDedup ladder) (refPrice direction tick) = 1 →
        trailTarget direction ladder price_open (refPrice direction tick) =
          some price_open) ∧
      (2 ≤ achievedCount direction (sortDedup ladder) (refPrice direction tick) →
        trailTarget direction ladder price_open (refPrice direction tick) =
          some ((sortDedup ladder).getD
            (achievedCount direction (sortDedup ladder) (refPrice direction tick) - 2) 0))) ∧
    achievedCount "BUY" (sortDedup [10, 20, 30]) 20 = 2 ∧
    (∀ price_open : ℚ, trailTarget "BUY" [10, 20, 30] price_open 20 = some 10) := by
  refine ⟨fun direction ladder price_open cur_sl d point tick => ⟨?_, ?_, ?_⟩,
    by decide, fun price_open => ?_⟩
  · intro h
    simp only [trailStep]
    by_cases hl : ladder = []
    · simp [hl]
    · have ht : trailTarget direction ladder price_open (refPrice direction tick) = none := by
        simp only [trailTarget, h]
        norm_num
      simp [hl, ht]
  · intro h
    simp only [trailTarget, h]
    norm_num
  · intro h
    have h0 : ¬ achievedCount direction (sortDedup ladder) (refPrice direction tick) ≤ 0 := by
      omega
    have h1 : ¬ achievedCount direction (sortDedup ladder) (refPrice direction tick) = 1 := by
      omega
    simp only [trailTarget, if_neg h0, if_neg h1]
  · have hs : sortDedup [10, 20, 30] = [(10 : ℚ), 20, 30] := by decide
    simp only [trailTarget, hs]
    norm_num [achievedCount]

/-- Witness for `c2_trailing_target_rule`: a BUY position whose reference
price has reached no level gets no stop modification. -/
theorem c2_witness :
    trailStep 2 (1 / 100) "BUY" [(10 : ℚ), 20, 30] 5 4 ⟨9, 9⟩ = none :=
  (c2_trailing_target_rule.1 "BUY" [(10 : ℚ), 20, 30] 5 4 2 (1 / 100) ⟨9, 9⟩).1 (by decide)

/-- C5 counterexample: a position with comment `"ForeAi-BUY"` and a
non-matching tag is selected by the cancel-pending filter but NOT by the
close-positions filter, which tests the magic tag only. -/
theorem c5_counterexample :
    cancelOwned 777001 ⟨1, "ForeAi-BUY"⟩ = true ∧
    closeKeep 777001 false none ⟨1, 0, "ForeAi-BUY"⟩ = false := by
  decide

/-- C5 (amended): the two bulk operations do not share one ownership
filter.  `cancel_all_pending` selects an order when its magic matches OR
its comment starts with the current (`ForeAi-`) or legacy (`MazharBot-`)
brand prefix, while `close_all_positions` (not including foreign owners)
selects a position only when its magic matches; the `"ForeAi-BUY"` comment
position is selected by cancel-pending and not by close-positions. -/
theorem c5_ownership_filters :
    (∀ (magicCfg : ℤ) (only_profit : Option Bool) (p : MPosition),
      closeKeep magicCfg false only_profit p = true → p.magic = magicCfg) ∧
    (∀ (magicCfg : ℤ) (o : MOrder), o.magic ≠ magicCfg →
      pyStartsWith o.comment.toList ("ForeAi-".toList) = true →
      cancelOwned magicCfg o = true) ∧
    cancelSelect 777001 false [⟨1, "ForeAi-BUY"⟩] = [⟨1, "ForeAi-BUY"⟩] ∧
    closeSelect 777001 false none [⟨1, 0, "ForeAi-BUY"⟩] = [] := by
  refine ⟨?_, ?_, by decide, by decide⟩
  · intro magicCfg only_profit p h
    by_cases hm : p.magic = magicCfg
    · exact hm
    · exfalso
      simp [closeKeep, hm] at h
  · intro magicCfg o hm hpre
    simp only [cancelOwned, Bool.or_eq_true, decide_eq_true_eq]
    exact Or.inl (Or.inr hpre)

/-- Witness for `c5_ownership_filters`: a legacy-free brand comment is
enough for cancel-pending ownership. -/
theorem c5_witness : cancelOwned 777001 ⟨1, "ForeAi-X"⟩ = true :=
  c5_ownership_filters.2.1 777001 ⟨1, "ForeAi-X"⟩ (by decide) (by decide)

/-- C8 counterexample: with suffix `"m"` and a venue recognizing both
`"ABC"` and `"ABCm"`, non-strict resolution returns the SUFFIXED symbol
even though the literal one is recognized (the claim's try order, literal
first, would return `"ABC"`); and with a venue recognizing nothing, it
still returns the default fallback symbol, which the venue does not
recognize. -/
theorem c8_counterexample :
    resolveSymbol (fun s => s == "ABC" || s == "ABCm") "m" "XAUUSD" "ABC" = "ABCm" ∧
    ((fun s : String => s == "ABC" || s == "ABCm") "ABC") = true ∧
    ("ABCm" : String) ≠ "ABC" ∧
    resolveSymbol (fun _ => false) "" "XAUUSD" "ABC" = "XAUUSD" ∧
    ((fun _ : String => false) "XAUUSD") = false := by
  decide

/-- C8 (amended): non-strict resolution tries, in order, the suffixed
signal symbol (the literal symbol when no suffix is configured), then the
literal symbol, then the default fallback, returning the first the venue
recognizes — and returns the default fallback even when the venue
recognizes none of them.  The strict path tries suffixed then literal on
the uppercased, stripped base, never returns an unrecognized symbol, and
reports absence instead of falling back. -/
theorem c8_resolution_order (venue : String → Bool) (suffix defaultSym sig : String) :
    (venue (if suffix ≠ "" then sig ++ suffix else sig) = true →
      resolveSymbol venue suffix defaultSym sig =
        (if suffix ≠ "" then sig ++ suffix else sig)) ∧
    (venue (if suffix ≠ "" then sig ++ suffix else sig) = false → venue sig = true →
      resolveSymbol venue suffix defaultSym sig = sig) ∧
    (venue (if suffix ≠ "" then sig ++ suffix else sig) = false → venue sig = false →
      resolveSymbol venue suffix defaultSym sig = defaultSym) ∧
    (∀ r, resolveSymbolStrict venue suffix sig = some r → venue r = true) ∧
    (venue (if suffix ≠ "" then
        pyUpper (String.mk (pyStrip sig.toList)) ++ suffix
      else pyUpper (String.mk (pyStrip sig.toList))) = false →
      venue (pyUpper (String.mk (pyStrip sig.toList))) = false →
      resolveSymbolStrict venue suffix sig = none) := by
  refine ⟨?_, ?_, ?_, ?_, ?_⟩
  · intro h
    simp only [resolveSymbol]
    rw [List.find?_cons_of_pos _ h]
  · intro h1 h2
    simp only [resolveSymbol]
    rw [List.find?_cons_of_neg _ (by simpa using h1), List.find?_cons_of_pos _ h2]
  · intro h1 h2
    simp only [resolveSymbol]
    rw [List.find?_cons_of_neg _ (by simpa using h1), List.find?_cons_of_neg _ (by simpa using h2)]
    cases hd : venue defaultSym
    · rw [List.find?_cons_of_neg _ (by simp [hd]), List.find?_nil]
    · rw [List.find?_cons_of_pos _ hd]
  · intro r h
    simp only [resolveSymbolStrict] at h
    by_cases hb : pyUpper (String.mk (pyStrip sig.toList)) = ""
    · rw [if_pos hb] at h
      exact absurd h (by simp)
    · rw [if_neg hb] at h
      exact List.find?_some h
  · intro h1 h2
    simp only [resolveSymbolStrict]
    by_cases hb : pyUpper (String.mk (pyStrip sig.toList)) = ""
    · rw [if_pos hb]
    · rw [if_neg hb, List.find?_cons_of_neg _ (by simpa using h1),
        List.find?_cons_of_neg _ (by simpa using h2), List.find?_nil]

/-- Witness for `c8_resolution_order`: a venue recognizing only the
suffixed form resolves to it. -/
theorem c8_witness :
    resolveSymbol (fun s => s == "ABCm") "m" "XAUUSD" "ABC" = "ABCm" :=
  ((c8_resolution_order (fun s => s == "ABCm") "m" "XAUUSD" "ABC").1 (by decide)).trans
    (by decide)

/-- C6 counterexample: for an intent whose take-profit list is
`[open, 100]` (an `open` marker before a numeric level) and a one-rung
zone, rung 0 receives take-profit `100`, not element 0 of the intent's
take-profit list (the `open` marker): assignment is positional over the
numeric take-profits only. -/
theorem c6_counterexample :
    planRungs 2 ⟨"XAUUSD", "BUY", 0, 5, 5, 3, [none, some 100], ""⟩ = [(5, some 100)] ∧
    (ParsedSignal.take_profits ⟨"XAUUSD", "BUY", 0, 5, 5, 3, [none, some 100], ""⟩).get? 0 =
      some none := by
  constructor
  · show (ladderPrices 2 "BUY" 5 5).enum.map _ = _
    rw [show ladderPrices 2 "BUY" 5 5 = [5] from by
      norm_num [ladderPrices, buyLoop, sellLoop, roundP, rhe, qfloor_eq, qceil_eq, eps9]]
    decide
  · decide

/-- C6 (amended): take-profit assignment is positional over the intent's
NUMERIC take-profit list (the `open` markers filtered out): rung `i`
receives numeric take-profit `i`, or no take-profit when fewer than `i+1`
numeric levels exist. -/
theorem c6_positional_tp (d : ℕ) (sig : ParsedSignal) (i : ℕ)
    (h : i < (planRungs d sig).length) :
    ((planRungs d sig).get? i).map Prod.snd =
      some ((sig.take_profits.filterMap id).get? i) := by
  have hi : i < (ladderPrices d sig.direction sig.zone_low sig.zone_high).length := by
    simpa [planRungs] using h
  rw [show planRungs d sig = (ladderPrices d sig.direction sig.zone_low sig.zone_high).enum.map
      (fun ip => (ip.2, (sig.take_profits.filterMap id).get? ip.1)) from rfl]
  rw [List.get?_map, List.get?_enum, List.get?_eq_get hi]
  rfl

/-- Witness for `c6_positional_tp` at rung 0 of a one-rung plan whose
first listed take-profit is an `open` marker. -/
theorem c6_witness :
    ((planRungs 2 ⟨"W", "BUY", 0, 7, 7, 3, [none, some 100], ""⟩).get? 0).map Prod.snd =
      some (some 100) := by
  have hlen : (planRungs 2 ⟨"W", "BUY", 0, 7, 7, 3, [none, some 100], ""⟩).length = 1 := by
    show ((ladderPrices 2 "BUY" 7 7).enum.map _).length = 1
    rw [show ladderPrices 2 "BUY" 7 7 = [7] from by
      norm_num [ladderPrices, buyLoop, sellLoop, roundP, rhe, qfloor_eq, qceil_eq, eps9]]
    rfl
  rw [c6_positional_tp 2 ⟨"W", "BUY", 0, 7, 7, 3, [none, some 100], ""⟩ 0 (by rw [hlen]; norm_num)]
  decide

/-- `rhe` of an integer is that integer. -/
theorem rhe_intCast (n : ℤ) : rhe ((n : ℚ)) = n := by
  simp [rhe, qfloor_eq]

/-- Two-decimal rounding is the identity on whole multiples of `1/100`. -/
theorem roundP_hundredth (k : ℤ) : roundP 2 ((k : ℚ) / 100) = (k : ℚ) / 100 := by
  have h : ((k : ℚ) / 100) * (10 : ℚ) ^ 2 = (k : ℚ) := by
    rw [show ((10 : ℚ) ^ 2) = 100 from by norm_num]
    exact div_mul_cancel₀ _ (by norm_num)
  rw [roundP, h, rhe_intCast]
  norm_num

/-- `int()` of an integer value. -/
theorem pyInt_intCast (n : ℤ) : pyInt ((n : ℚ)) = n := by
  unfold pyInt
  split <;> simp [qfloor_eq, qceil_eq]

/-- `int()` truncation never exceeds a non-negative value. -/
theorem pyInt_le_self (q : ℚ) (h : 0 ≤ q) : ((pyInt q : ℤ) : ℚ) ≤ q := by
  rw [pyInt, if_pos h, qfloor_eq]
  exact Int.floor_le q

/-- C7 counterexample: with volume step `0.02`, min `0.01`, max `0.05`
(max not a whole number of steps), snapping is NOT idempotent:
`snap(1.0) = 0.05` but `snap(0.05) = 0.04`. -/
theorem c7_counterexample :
    adjustLot (2 / 100) (1 / 100) (5 / 100) 1 = 1 / 20 ∧
    adjustLot (2 / 100) (1 / 100) (5 / 100) (1 / 20) = 1 / 25 ∧
    ((1 : ℚ) / 25) ≠ 1 / 20 := by
  refine ⟨?_, ?_, by norm_num⟩
  · exact of_decide_eq_true (by with_unfolding_all rfl)
  · exact of_decide_eq_true (by with_unfolding_all rfl)

/-- C7 (amended): the snapped lot is the raw lot truncated down to a whole
number of volume steps, clamped into `[min, max]`, and finally rounded to
two decimals.  When step, min and max are whole positive multiples of
`0.01` with `min ≤ max` and max itself a whole number of steps, the final
two-decimal rounding is the identity, the operation is idempotent, and
`min ≤ snap(x) ≤ max` always holds.  (Without these provisos idempotence
and the bounds can fail, see the counterexample.) -/
theorem c7_lot_snap (a b c : ℕ) (ha : 0 < a) (hb : 0 < b) (hbc : b ≤ c)
    (hac : a ∣ c) (x : ℚ) :
    adjustLot ((a : ℚ) / 100) ((b : ℚ) / 100) ((c : ℚ) / 100) x =
      (if ((pyInt (x / ((a : ℚ) / 100)) : ℤ) : ℚ) * ((a : ℚ) / 100) < (b : ℚ) / 100
        then (b : ℚ) / 100
        else if ((pyInt (x / ((a : ℚ) / 100)) : ℤ) : ℚ) * ((a : ℚ) / 100) > (c : ℚ) / 100
          then (c : ℚ) / 100
          else ((pyInt (x / ((a : ℚ) / 100)) : ℤ) : ℚ) * ((a : ℚ) / 100)) ∧
    adjustLot ((a : ℚ) / 100) ((b : ℚ) / 100) ((c : ℚ) / 100)
        (adjustLot ((a : ℚ) / 100) ((b : ℚ) / 100) ((c : ℚ) / 100) x) =
      adjustLot ((a : ℚ) / 100) ((b : ℚ) / 100) ((c : ℚ) / 100) x ∧
    (b : ℚ) / 100 ≤ adjustLot ((a : ℚ) / 100) ((b : ℚ) / 100) ((c : ℚ) / 100) x ∧
    adjustLot ((a : ℚ) / 100) ((b : ℚ) / 100) ((c : ℚ) / 100) x ≤ (c : ℚ) / 100 := by
  have hs0 : (0 : ℚ) < (a : ℚ) / 100 := by
    apply div_pos _ (by norm_num)
    exact_mod_cast ha
  have hsne : ((a : ℚ) / 100) ≠ 0 := ne_of_gt hs0
  have hmnx : (b : ℚ) / 100 ≤ (c : ℚ) / 100 := by
    apply (div_le_div_iff_of_pos_right (by norm_num)).mpr
    exact_mod_cast hbc
  -- `adjustLot` with these parameters is clamp-of-truncate (the final
  -- two-decimal rounding is the identity on the hundredths grid).
  have key : ∀ y : ℚ,
      adjustLot ((a : ℚ) / 100) ((b : ℚ) / 100) ((c : ℚ) / 100) y =
        (if ((pyInt (y / ((a : ℚ) / 100)) : ℤ) : ℚ) * ((a : ℚ) / 100) < (b : ℚ) / 100
          then (b : ℚ) / 100
          else if ((pyInt (y / ((a : ℚ) / 100)) : ℤ) : ℚ) * ((a : ℚ) / 100) > (c : ℚ) / 100
            then (c : ℚ) / 100
            else ((pyInt (y / ((a : ℚ) / 100)) : ℤ) : ℚ) * ((a : ℚ) / 100)) := by
    intro y
    have htg : ((pyInt (y / ((a : ℚ) / 100)) : ℤ) : ℚ) * ((a : ℚ) / 100) =
        ((pyInt (y / ((a : ℚ) / 100)) * (a : ℤ) : ℤ) : ℚ) / 100 := by
      push_cast
      ring
    simp only [adjustLot]
    split_ifs with h1 h2 h3 <;>
      first
        | linarith
        | (rw [htg]; exact roundP_hundredth _)
        | (rw [show ((b : ℚ) / 100) = (((b : ℕ) : ℤ) : ℚ) / 100 from by push_cast; rfl]
           exact roundP_hundredth _)
        | (rw [show ((c : ℚ) / 100) = (((c : ℕ) : ℤ) : ℚ) / 100 from by push_cast; rfl]
           exact roundP_hundredth _)
  refine ⟨key x, ?_, ?_, ?_⟩
  · -- idempotence
    rw [key x]
    by_cases h1 : ((pyInt (x / ((a : ℚ) / 100)) : ℤ) : ℚ) * ((a : ℚ) / 100) < (b : ℚ) / 100
    · -- the result is `min`
      rw [if_pos h1, key ((b : ℚ) / 100)]
      have hq : (0 : ℚ) ≤ (b : ℚ) / 100 / ((a : ℚ) / 100) := by positivity
      have hle : ((pyInt ((b : ℚ) / 100 / ((a : ℚ) / 100)) : ℤ) : ℚ) * ((a : ℚ) / 100) ≤
          (b : ℚ) / 100 := by
        calc ((pyInt ((b : ℚ) / 100 / ((a : ℚ) / 100)) : ℤ) : ℚ) * ((a : ℚ) / 100)
            ≤ ((b : ℚ) / 100 / ((a : ℚ) / 100)) * ((a : ℚ) / 100) :=
              mul_le_mul_of_nonneg_right (pyInt_le_self _ hq) (le_of_lt hs0)
          _ = (b : ℚ) / 100 := div_mul_cancel₀ _ hsne
      by_cases h3 : ((pyInt ((b : ℚ) / 100 / ((a : ℚ) / 100)) : ℤ) : ℚ) * ((a : ℚ) / 100) <
          (b : ℚ) / 100
      · rw [if_pos h3]
      · rw [if_neg h3]
        have heq : ((pyInt ((b : ℚ) / 100 / ((a : ℚ) / 100)) : ℤ) : ℚ) * ((a : ℚ) / 100) =
            (b : ℚ) / 100 := le_antisymm hle (not_lt.mp h3)
        rw [heq, if_neg (not_lt.mpr hmnx)]
    · rw [if_neg h1]
      by_cases h2 : ((pyInt (x / ((a : ℚ) / 100)) : ℤ) : ℚ) * ((a : ℚ) / 100) > (c : ℚ) / 100
      · -- the result is `max`, itself a whole number of steps
        rw [if_pos h2, key ((c : ℚ) / 100)]
        obtain ⟨m, hm⟩ := hac
        have hdiv : (c : ℚ) / 100 / ((a : ℚ) / 100) = ((m : ℤ) : ℚ) := by
          rw [hm]
          push_cast
          field_simp
        have ht' : ((pyInt ((c : ℚ) / 100 / ((a : ℚ) / 100)) : ℤ) : ℚ) * ((a : ℚ) / 100) =
            (c : ℚ) / 100 := by
          rw [hdiv, pyInt_intCast]
          rw [show ((m : ℤ) : ℚ) * ((a : ℚ) / 100) = (c : ℚ) / 100 from by
            rw [hm]; push_cast; ring]
        rw [ht', if_neg (not_lt.mpr hmnx), if_neg (lt_irrefl _)]
      · -- the result is the truncated value itself, a whole number of steps
        rw [if_neg h2, key _]
        have hy : ((pyInt (x / ((a : ℚ) / 100)) : ℤ) : ℚ) * ((a : ℚ) / 100) /
            ((a : ℚ) / 100) = ((pyInt (x / ((a : ℚ) / 100)) : ℤ) : ℚ) :=
          mul_div_cancel_right₀ _ hsne
        rw [hy, pyInt_intCast, if_neg h1, if_neg h2]
  · -- lower bound
    rw [key x]
    by_cases h1 : ((pyInt (x / ((a : ℚ) / 100)) : ℤ) : ℚ) * ((a : ℚ) / 100) < (b : ℚ) / 100
    · rw [if_pos h1]
    · rw [if_neg h1]
      by_cases h2 : ((pyInt (x / ((a : ℚ) / 100)) : ℤ) : ℚ) * ((a : ℚ) / 100) > (c : ℚ) / 100
      · rw [if_pos h2]
        exact hmnx
      · rw [if_neg h2]
        exact not_lt.mp h1
  · -- upper bound
    rw [key x]
    by_cases h1 : ((pyInt (x / ((a : ℚ) / 100)) : ℤ) : ℚ) * ((a : ℚ) / 100) < (b : ℚ) / 100
    · rw [if_pos h1]
      exact hmnx
    · rw [if_neg h1]
      by_cases h2 : ((pyInt (x / ((a : ℚ) / 100)) : ℤ) : ℚ) * ((a : ℚ) / 100) > (c : ℚ) / 100
      · rw [if_pos h2]
      · rw [if_neg h2]
        exact not_lt.mp h2

/-- Witness for `c7_lot_snap`: volume step `0.1`, min `0.01`, max `1.0`,
raw lot `0.25`. -/
theorem c7_witness :
    adjustLot ((10 : ℚ) / 100) ((1 : ℚ) / 100) ((100 : ℚ) / 100)
        (adjustLot ((10 : ℚ) / 100) ((1 : ℚ) / 100) ((100 : ℚ) / 100) (1 / 4)) =
      adjustLot ((10 : ℚ) / 100) ((1 : ℚ) / 100) ((100 : ℚ) / 100) (1 / 4) ∧
    (1 : ℚ) / 100 ≤ adjustLot ((10 : ℚ) / 100) ((1 : ℚ) / 100) ((100 : ℚ) / 100) (1 / 4) ∧
    adjustLot ((10 : ℚ) / 100) ((1 : ℚ) / 100) ((100 : ℚ) / 100) (1 / 4) ≤ (100 : ℚ) / 100 := by
  have h := c7_lot_snap 10 1 100 (by norm_num) (by norm_num) (by norm_num)
    (by norm_num) (1 / 4)
  exact ⟨by exact_mod_cast h.2.1, by exact_mod_cast h.2.2.1, by exact_mod_cast h.2.2.2⟩

/-- One BUY trailing pass never lowers the stop provided the
minimum-distance clamp does not fire at that tick (the rounded target is
below the reference price). -/
theorem c3_step_le (d : ℕ) (point : ℚ) (ladder : List ℚ) (price_open sl0 : ℚ)
    (tick : Tick)
    (hnc : ∀ x, trailTarget "BUY" ladder price_open tick.bid = some x →
      roundP d x < tick.bid) :
    sl0 ≤ applyTrail d point "BUY" ladder price_open sl0 tick := by
  have heps : (0 : ℚ) < eps7 := by norm_num [eps7]
  have hr : refPrice "BUY" tick = tick.bid := by simp [refPrice]
  simp only [applyTrail, trailStep, hr]
  by_cases hl : ladder = []
  · simp [hl]
  · simp only [if_neg hl]
    cases ht : trailTarget "BUY" ladder price_open tick.bid with
    | none => simp
    | some t0 =>
      have hlt := hnc t0 ht
      simp only []
      by_cases hg : roundP d t0 ≤ sl0 + eps7
      · simp [hg]
      · simp only [if_neg hg, if_pos rfl, reduceIte, if_neg (not_le.mpr hlt)]
        have : sl0 + eps7 < roundP d t0 := not_le.mp hg
        linarith

/-- C3 (amended): the monotonicity guard rejects non-tightening targets
before the clamp — for BUY an update whose rounded target is at most the
current stop plus epsilon is dropped, for SELL an update whose rounded
target is at least the (set) current stop minus epsilon is dropped — and
consequently repeated BUY trailing passes never lower the stop-loss as
long as no applied update triggers the minimum-distance clamp (its rounded
target stays below the reference price).  When the clamp fires, the
clamped stop is not re-checked against the guard and the stop can move
down (see the counterexample). -/
theorem c3_trailing_monotone :
    (∀ (d : ℕ) (point : ℚ) (ladder : List ℚ) (price_open cur_sl : ℚ) (tick : Tick),
      ∀ t0, trailTarget "BUY" ladder price_open tick.bid = some t0 →
        roundP d t0 ≤ cur_sl + eps7 →
        trailStep d point "BUY" ladder price_open cur_sl tick = none) ∧
    (∀ (d : ℕ) (point : ℚ) (ladder : List ℚ) (price_open cur_sl : ℚ) (tick : Tick),
      ∀ t0, trailTarget "SELL" ladder price_open tick.ask = some t0 →
        cur_sl > 0 → cur_sl - eps7 ≤ roundP d t0 →
        trailStep d point "SELL" ladder price_open cur_sl tick = none) ∧
    (∀ (d : ℕ) (point : ℚ) (ladder : List ℚ) (price_open : ℚ) (ticks : List Tick)
        (sl0 : ℚ),
      (∀ t ∈ ticks, ∀ x, trailTarget "BUY" ladder price_open t.bid = some x →
        roundP d x < t.bid) →
      sl0 ≤ trailRun d point "BUY" ladder price_open sl0 ticks) := by
  refine ⟨?_, ?_, ?_⟩
  · intro d point ladder price_open cur_sl tick t0 ht hg
    have hr : refPrice "BUY" tick = tick.bid := by simp [refPrice]
    simp only [trailStep, hr]
    by_cases hl : ladder = []
    · simp [hl]
    · simp [if_neg hl, ht, hg]
  · intro d point ladder price_open cur_sl tick t0 ht hp hg
    have hr : refPrice "SELL" tick = tick.ask := by simp [refPrice]
    simp only [trailStep, hr]
    by_cases hl : ladder = []
    · simp [hl]
    · simp [if_neg hl, ht, hp, hg, ge_iff_le]
  · intro d point ladder price_open ticks
    induction ticks with
    | nil => intro sl0 _; exact le_refl _
    | cons t ts ih =>
      intro sl0 hnc
      simp only [trailRun]
      calc sl0 ≤ applyTrail d point "BUY" ladder price_open sl0 t :=
            c3_step_le d point ladder price_open sl0 t (hnc t (List.mem_cons_self t ts))
        _ ≤ trailRun d point "BUY" ladder price_open
              (applyTrail d point "BUY" ladder price_open sl0 t) ts :=
            ih _ (fun t' ht' => hnc t' (List.mem_cons_of_mem _ ht'))

/-- C3 counterexample: a single BUY trailing pass (trivially a
non-decreasing reference-price sequence) LOWERS the stop from `20` to
`9.98`: ladder `[10]`, entry `30`, bid `10`; one level is achieved, so the
target is break-even `30`, which passes the guard against the current stop
`20`, then the minimum-distance clamp rewrites it to `10 - 2·0.01 = 9.98`
without re-checking the guard. -/
theorem c3_counterexample :
    trailRun 2 (1 / 100) "BUY" [10] 30 20 [⟨10, 10⟩] = 499 / 50 ∧
    (499 / 50 : ℚ) < 20 := by
  refine ⟨?_, by norm_num⟩
  exact of_decide_eq_true (by with_unfolding_all rfl)

/-- Witness for `c3_trailing_monotone`: two rising ticks on a BUY position
with ladder `[12, 14]` never lower the stop from `9`. -/
theorem c3_witness :
    (9 : ℚ) ≤ trailRun 2 (1 / 100) "BUY" [12, 14] 11 9 [⟨15, 15⟩, ⟨16, 16⟩] := by
  apply c3_trailing_monotone.2.2 2 (1 / 100) [12, 14] 11 [⟨15, 15⟩, ⟨16, 16⟩] 9
  intro t ht x hx
  fin_cases ht
  · rw [show trailTarget "BUY" [12, 14] 11 (Tick.bid ⟨15, 15⟩) = some 12 from by decide]
      at hx
    cases hx
    show roundP 2 12 < 15
    norm_num [roundP, rhe, qfloor_eq]
  · rw [show trailTarget "BUY" [12, 14] 11 (Tick.bid ⟨16, 16⟩) = some 12 from by decide]
      at hx
    cases hx
    show roundP 2 12 < 16
    norm_num [roundP, rhe, qfloor_eq]

/-- Half-even rounding commutes with adding an even integer. -/
theorem rhe_add_even (x : ℚ) (n : ℤ) (hn : n % 2 = 0) : rhe (x + n) = rhe x + n := by
  have hf : qfloor (x + n) = qfloor x + n := by
    rw [qfloor_eq, qfloor_eq]
    exact_mod_cast Int.floor_add_int x n
  have hr : (x + (n : ℚ)) - ((qfloor x + n : ℤ) : ℚ) = x - (qfloor x : ℚ) := by
    push_cast
    ring
  simp only [rhe, hf]
  rw [hr]
  split_ifs <;> omega

/-- Stepping one price unit down commutes with rounding to `d ≥ 1`
decimals (one unit is an even number of `10^-d` increments). -/
theorem roundP_sub_one (d : ℕ) (hd : 1 ≤ d) (x : ℚ) :
    roundP d (x - 1) = roundP d x - 1 := by
  have hdvd : (2 : ℤ) ∣ 10 ^ d := dvd_pow (by norm_num) (by omega)
  have hpar : ((-(10 ^ d)) : ℤ) % 2 = 0 := by
    obtain ⟨k, hk⟩ := hdvd
    omega
  have harg : (x - 1) * (10 : ℚ) ^ d = x * (10 : ℚ) ^ d + (((-(10 ^ d)) : ℤ) : ℚ) := by
    push_cast
    ring
  have hne : ((10 : ℚ) ^ d) ≠ 0 := by positivity
  rw [roundP, roundP, harg, rhe_add_even _ _ hpar]
  push_cast
  field_simp
  ring

/-- Closed form of the BUY zone loop for sufficient fuel: the source
`while p >= lo - 1e-9` loop emits `⌊p - lo + 1e-9⌋ + 1` prices
`round(p), round(p-1), ...`. -/
theorem buyLoop_closed (d : ℕ) (lo : ℚ) :
    ∀ (fuel : ℕ) (p : ℚ), (qfloor (p - lo + eps9) + 1).toNat < fuel →
      buyLoop d lo fuel p =
        (List.range (if lo - eps9 ≤ p then (qfloor (p - lo + eps9)).toNat + 1 else 0)).map
          (fun i : ℕ => roundP d (p - (i : ℚ))) := by
  intro fuel
  induction fuel with
  | zero => intro p h; omega
  | succ n ih =>
    intro p h
    by_cases hc : lo - eps9 ≤ p
    · have hx0 : (0 : ℚ) ≤ p - lo + eps9 := by linarith
      have hf0 : 0 ≤ qfloor (p - lo + eps9) := by
        rw [qfloor_eq]
        exact Int.floor_nonneg.mpr hx0
      have hstep : qfloor ((p - 1) - lo + eps9) = qfloor (p - lo + eps9) - 1 := by
        rw [qfloor_eq, qfloor_eq,
          show (p - 1) - lo + eps9 = (p - lo + eps9) + ((-1 : ℤ) : ℚ) from by
            push_cast; ring,
          Int.floor_add_int]
        ring
      simp only [buyLoop, if_pos hc]
      by_cases hc2 : lo - eps9 ≤ p - 1
      · have hx1 : (0 : ℚ) ≤ (p - 1) - lo + eps9 := by linarith
        have hf1 : 0 ≤ qfloor ((p - 1) - lo + eps9) := by
          rw [qfloor_eq]
          exact Int.floor_nonneg.mpr hx1
        rw [ih (p - 1) (by omega), if_pos hc2]
        have hN : (qfloor (p - lo + eps9)).toNat =
            (qfloor ((p - 1) - lo + eps9)).toNat + 1 := by
          omega
        rw [hN]
        conv_rhs => rw [List.range_succ_eq_map]
        rw [List.map_cons, List.map_map]
        congr 1
        · norm_num
        · apply List.map_congr_left
          intro i _
          simp only [Function.comp_apply]
          congr 1
          push_cast
          ring
      · have h0 : qfloor (p - lo + eps9) = 0 := by
          have hlt : p - lo + eps9 < ((1 : ℤ) : ℚ) := by
            push_cast
            linarith
          have h1 := Int.floor_lt.mpr hlt
          have h2 : (0 : ℤ) ≤ ⌊p - lo + eps9⌋ := Int.floor_nonneg.mpr hx0
          rw [qfloor_eq]
          omega
        rw [ih (p - 1) (by rw [hstep, h0]; rw [h0] at h; omega), if_neg hc2, h0,
          show List.range (Int.toNat 0 + 1) = [ 0 ] from rfl]
        simp
    · simp only [buyLoop, if_neg hc]
      simp

/-- Closed form of the SELL zone loop (`while p <= hi + 1e-9`, stepping
up). -/
theorem sellLoop_closed (d : ℕ) (hi : ℚ) :
    ∀ (fuel : ℕ) (p : ℚ), (qfloor (hi - p + eps9) + 1).toNat < fuel →
      sellLoop d hi fuel p =
        (List.range (if p ≤ hi + eps9 then (qfloor (hi - p + eps9)).toNat + 1 else 0)).map
          (fun i : ℕ => roundP d (p + (i : ℚ))) := by
  intro fuel
  induction fuel with
  | zero => intro p h; omega
  | succ n ih =>
    intro p h
    by_cases hc : p ≤ hi + eps9
    · have hx0 : (0 : ℚ) ≤ hi - p + eps9 := by linarith
      have hf0 : 0 ≤ qfloor (hi - p + eps9) := by
        rw [qfloor_eq]
        exact Int.floor_nonneg.mpr hx0
      have hstep : qfloor (hi - (p + 1) + eps9) = qfloor (hi - p + eps9) - 1 := by
        rw [qfloor_eq, qfloor_eq,
          show hi - (p + 1) + eps9 = (hi - p + eps9) + ((-1 : ℤ) : ℚ) from by
            push_cast; ring,
          Int.floor_add_int]
        ring
      simp only [sellLoop, if_pos hc]
      by_cases hc2 : p + 1 ≤ hi + eps9
      · have hx1 : (0 : ℚ) ≤ hi - (p + 1) + eps9 := by linarith
        have hf1 : 0 ≤ qfloor (hi - (p + 1) + eps9) := by
          rw [qfloor_eq]
          exact Int.floor_nonneg.mpr hx1
        rw [ih (p + 1) (by omega), if_pos hc2]
        have hN : (qfloor (hi - p + eps9)).toNat =
            (qfloor (hi - (p + 1) + eps9)).toNat + 1 := by
          omega
        rw [hN]
        conv_rhs => rw [List.range_succ_eq_map]
        rw [List.map_cons, List.map_map]
        congr 1
        · norm_num
        · apply List.map_congr_left
          intro i _
          simp only [Function.comp_apply]
          congr 1
          push_cast
          ring
      · have h0 : qfloor (hi - p + eps9) = 0 := by
          have hlt : hi - p + eps9 < ((1 : ℤ) : ℚ) := by
            push_cast
            linarith
          have h1 := Int.floor_lt.mpr hlt
          have h2 : (0 : ℤ) ≤ ⌊hi - p + eps9⌋ := Int.floor_nonneg.mpr hx0
          rw [qfloor_eq]
          omega
        rw [ih (p + 1) (by rw [hstep, h0]; rw [h0] at h; omega), if_neg hc2, h0,
          show List.range (Int.toNat 0 + 1) = [ 0 ] from rfl]
        simp
    · simp only [sellLoop, if_neg hc]
      simp

/-- C4 counterexample: for zone `[0, 2.6]` (BUY) the planner produces 3
rungs, but the claim's formula `round(hi-lo)+1` gives `4`. -/
theorem c4_counterexample :
    (ladderPrices 2 "BUY" 0 (26 / 10)).length = 3 ∧
    rhe ((26 / 10 : ℚ) - 0) + 1 = 4 := by
  constructor
  · rw [show ladderPrices 2 "BUY" 0 (26 / 10) = [13 / 5, 8 / 5, 3 / 5] from
      of_decide_eq_true (by with_unfolding_all rfl)]
    rfl
  · norm_num [rhe, qfloor_eq]

/-- C4 (amended): for a zone `[lo, hi]` with `lo ≤ hi`, both the BUY and
the SELL ladder have exactly `⌊hi - lo + 1e-9⌋ + 1` rungs (which equals
the claim's `round(hi-lo)+1` exactly when the zone width is a whole
number); rung `i` is priced `round(hi - i)` for BUY and `round(lo + i)`
for SELL (a whole-step offset from the respective zone edge, rounded to
the instrument's `d` digits); and for instruments with at least one
decimal digit the BUY prices are strictly decreasing and the SELL prices
strictly increasing. -/
theorem c4_zone_ladder (d : ℕ) (hd : 1 ≤ d) (lo hi : ℚ) (hle : lo ≤ hi) :
    (ladderPrices d "BUY" lo hi).length = (qfloor (hi - lo + eps9)).toNat + 1 ∧
    (ladderPrices d "SELL" lo hi).length = (qfloor (hi - lo + eps9)).toNat + 1 ∧
    (∀ i : ℕ, i < (qfloor (hi - lo + eps9)).toNat + 1 →
      (ladderPrices d "BUY" lo hi).get? i = some (roundP d (hi - (i : ℚ))) ∧
      (ladderPrices d "SELL" lo hi).get? i = some (roundP d (lo + (i : ℚ)))) ∧
    (∀ i : ℕ, roundP d (hi - ((i + 1 : ℕ) : ℚ)) < roundP d (hi - (i : ℚ)) ∧
      roundP d (lo + (i : ℚ)) < roundP d (lo + ((i + 1 : ℕ) : ℚ))) ∧
    (∀ n : ℤ, hi - lo = (n : ℚ) →
      ((qfloor (hi - lo + eps9)).toNat + 1 : ℤ) = rhe (hi - lo) + 1) := by
  have heps : (0 : ℚ) < eps9 := by norm_num [eps9]
  have heps1 : eps9 < 1 := by norm_num [eps9]
  have hcond : lo - eps9 ≤ hi := by linarith
  have hcond2 : lo ≤ hi + eps9 := by linarith
  have hfl0 : 0 ≤ qfloor (hi - lo + eps9) := by
    rw [qfloor_eq]
    exact Int.floor_nonneg.mpr (by linarith)
  have hceil : qfloor (hi - lo + eps9) ≤ qceil (hi - lo) := by
    rw [qfloor_eq, qceil_eq]
    have h1 : hi - lo + eps9 < ((⌈hi - lo⌉ + 1 : ℤ) : ℚ) := by
      push_cast
      have := Int.le_ceil (hi - lo)
      linarith
    have := Int.floor_lt.mpr h1
    omega
  have hqc0 : 0 ≤ qceil (hi - lo) := by
    rw [qceil_eq]
    exact Int.ceil_nonneg (by linarith)
  have hbound : (qfloor (hi - lo + eps9) + 1).toNat < (qceil (hi - lo)).toNat + 2 := by
    omega
  have hLb : ladderPrices d "BUY" lo hi =
      (List.range ((qfloor (hi - lo + eps9)).toNat + 1)).map
        (fun i : ℕ => roundP d (hi - (i : ℚ))) := by
    rw [ladderPrices, if_pos rfl, buyLoop_closed d lo _ hi hbound, if_pos hcond]
  have hLs : ladderPrices d "SELL" lo hi =
      (List.range ((qfloor (hi - lo + eps9)).toNat + 1)).map
        (fun i : ℕ => roundP d (lo + (i : ℚ))) := by
    rw [ladderPrices, if_neg (by decide), sellLoop_closed d hi _ lo hbound, if_pos hcond2]
  refine ⟨?_, ?_, ?_, ?_, ?_⟩
  · rw [hLb]
    simp
  · rw [hLs]
    simp
  · intro i hi2
    constructor
    · rw [hLb, List.get?_map, List.get?_range hi2]
      rfl
    · rw [hLs, List.get?_map, List.get?_range hi2]
      rfl
  · intro i
    constructor
    · have hro := roundP_sub_one d hd (hi - (i : ℚ))
      have harg : hi - ((i + 1 : ℕ) : ℚ) = (hi - (i : ℚ)) - 1 := by
        push_cast
        ring
      rw [harg, hro]
      linarith
    · have hro := roundP_sub_one d hd (lo + ((i + 1 : ℕ) : ℚ))
      have harg : lo + (i : ℚ) = (lo + ((i + 1 : ℕ) : ℚ)) - 1 := by
        push_cast
        ring
      rw [harg, hro]
      linarith
  · intro n hn
    have h1 : qfloor (hi - lo + eps9) = n := by
      rw [qfloor_eq, hn, Int.floor_eq_iff]
      constructor
      · push_cast
        linarith
      · push_cast
        linarith
    have h2 : rhe (hi - lo) = n := by
      rw [hn, rhe_intCast]
    have hn0 : 0 ≤ n := by
      have : ((0 : ℤ) : ℚ) ≤ (n : ℚ) := by
        rw [← hn]
        push_cast
        linarith
      exact_mod_cast this
    rw [h1, h2]
    omega

/-- Witness for `c4_zone_ladder`: the C1 zone `[3459, 3463]` on a
two-digit instrument has 5 rungs. -/
theorem c4_witness : (ladderPrices 2 "BUY" 3459 3463).length = 5 := by
  have h := (c4_zone_ladder 2 (by norm_num) 3459 3463 (by norm_num)).1
  rw [h]
  norm_num [qfloor_eq, eps9]
  decide

/-! ## TP ladder persistence round-trip (C9) -/


theorem insDedup_ne_nil (x : ℚ) (l : List ℚ) : insDedup x l ≠ [] := by
  cases l with
  | nil => simp [insDedup]
  | cons y ys => simp only [insDedup]; split_ifs <;> simp

theorem foldl_insDedup_ne_nil (xs : List ℚ) :
    ∀ acc : List ℚ, acc ≠ [] → xs.foldl (fun a x => insDedup x a) acc ≠ [] := by
  induction xs with
  | nil => intro acc h; simpa using h
  | cons x rest ih =>
    intro acc _
    simpa using ih (insDedup x acc) (insDedup_ne_nil x acc)

theorem sortDedup_ne_nil (xs : List ℚ) (h : xs ≠ []) : sortDedup xs ≠ [] := by
  cases xs with
  | nil => exact absurd rfl h
  | cons x rest =>
    show List.foldl _ (insDedup x []) rest ≠ []
    exact foldl_insDedup_ne_nil rest _ (insDedup_ne_nil x [])

theorem lookup_setKey_self (m : LMap) (k : LKey) (v : List ℚ) :
    lookupKey (setKey m k v) k = some v := by
  induction m with
  | nil => simp [setKey, lookupKey, List.find?]
  | cons e rest ih =>
    obtain ⟨k', v'⟩ := e
    by_cases h : k' = k
    · subst h
      simp [setKey, lookupKey, List.find?]
    · simp only [setKey, if_neg h]
      simpa [lookupKey, List.find?, h] using ih

theorem lookup_setKey_ne (m : LMap) (k q : LKey) (v : List ℚ) (h : q ≠ k) :
    lookupKey (setKey m k v) q = lookupKey m q := by
  have hkq : k ≠ q := fun hh => h hh.symm
  induction m with
  | nil => simp [setKey, lookupKey, List.find?, hkq]
  | cons e rest ih =>
    obtain ⟨k', v'⟩ := e
    by_cases hk : k' = k
    · subst hk
      simp [setKey, lookupKey, List.find?, hkq]
    · simp only [setKey, if_neg hk]
      by_cases hq : k' = q
      · simp [lookupKey, List.find?, hq]
      · simpa [lookupKey, List.find?, hq] using ih

theorem mem_setKey_self (m : LMap) (k : LKey) (v : List ℚ) :
    (k, v) ∈ setKey m k v := by
  induction m with
  | nil => simp [setKey]
  | cons e rest ih =>
    obtain ⟨k', v'⟩ := e
    by_cases h : k' = k
    · simp [setKey, h]
    · simp only [setKey, if_neg h]
      exact List.mem_cons_of_mem _ ih

theorem setKey_mem_value (m : LMap) (k : LKey) (v : List ℚ)
    (hnd : (m.map Prod.fst).Nodup) :
    ∀ w, (k, w) ∈ setKey m k v → w = v := by
  induction m with
  | nil =>
    intro w hw
    simp [setKey] at hw
    exact hw
  | cons e rest ih =>
    obtain ⟨k', v'⟩ := e
    intro w hw
    have hnd' : (rest.map Prod.fst).Nodup := (List.nodup_cons.mp hnd).2
    by_cases h : k' = k
    · subst h
      rw [setKey, if_pos rfl] at hw
      rcases List.mem_cons.mp hw with heq | hmem
      · exact congrArg Prod.snd heq
      · exfalso
        have : k' ∈ rest.map Prod.fst := List.mem_map.mpr ⟨(k', w), hmem, rfl⟩
        exact (List.nodup_cons.mp hnd).1 this
    · rw [setKey, if_neg h] at hw
      rcases List.mem_cons.mp hw with heq | hmem
      · exact absurd (congrArg Prod.fst heq).symm h
      · exact ih hnd' w hmem

theorem traverseFloats_num (v : List ℚ) : traverseFloats (v.map PyVal.num) = some v := by
  induction v with
  | nil => rfl
  | cons q rest ih => simp [traverseFloats, pyFloat?, ih]

theorem splitBar_append (a b : List Char) (ha : '|' ∉ a) :
    splitBarL (a ++ '|' :: b) = some (a, b) := by
  induction a with
  | nil => simp [splitBarL]
  | cons c cs ih =>
    have hc : c ≠ '|' := fun h => ha (h ▸ List.mem_cons_self c cs)
    have hcs : '|' ∉ cs := fun h => ha (List.mem_cons_of_mem c h)
    simp [splitBarL, hc, ih hcs]

theorem splitBar_sound :
    ∀ (l a b : List Char), splitBarL l = some (a, b) → l = a ++ '|' :: b ∧ '|' ∉ a := by
  intro l
  induction l with
  | nil => intro a b h; simp [splitBarL] at h
  | cons c rest ih =>
    intro a b h
    by_cases hc : c = '|'
    · subst hc
      rw [splitBarL, if_pos rfl] at h
      have hp := Option.some.inj h
      have ha : a = [] := (congrArg Prod.fst hp).symm
      have hb : b = rest := (congrArg Prod.snd hp).symm
      subst ha; subst hb
      simp
    · rw [splitBarL, if_neg hc] at h
      cases hr : splitBarL rest with
      | none => rw [hr] at h; cases h
      | some p =>
        obtain ⟨a', b'⟩ := p
        rw [hr] at h
        have hp := Option.some.inj h
        have ha : c :: a' = a := congrArg Prod.fst hp
        have hb : b' = b := congrArg Prod.snd hp
        subst hb
        obtain ⟨hl, hna⟩ := ih a' b' hr
        subst hl
        constructor
        · rw [← ha]
          rfl
        · rw [← ha]
          intro hmem
          rcases List.mem_cons.mp hmem with h1 | h2
          · exact hc h1.symm
          · exact hna h2

theorem bar_split_unique :
    ∀ (a : List Char) (xs ys b : List Char),
      xs ++ '|' :: ys = a ++ '|' :: b → '|' ∉ a → '|' ∉ b → xs = a ∧ ys = b := by
  intro a
  induction a with
  | nil =>
    intro xs ys b h _ hnb
    cases xs with
    | nil =>
      simp at h
      exact ⟨rfl, h⟩
    | cons x xs' =>
      simp at h
      obtain ⟨hx, hrest⟩ := h
      exfalso
      exact hnb (hrest ▸ List.mem_append_right xs' (List.mem_cons_self '|' ys))
  | cons c a' ih =>
    intro xs ys b h hna hnb
    have hnc : c ≠ '|' := fun hh => hna (hh ▸ List.mem_cons_self c a')
    have hna' : '|' ∉ a' := fun hh => hna (List.mem_cons_of_mem c hh)
    cases xs with
    | nil =>
      simp at h
      exact absurd h.1.symm hnc
    | cons x xs' =>
      simp at h
      obtain ⟨hx, hrest⟩ := h
      obtain ⟨h1, h2⟩ := ih xs' ys b hrest hna' hnb
      exact ⟨by rw [hx, h1], h2⟩

theorem strCat_toList (a b : String) : (a ++ b).toList = a.toList ++ b.toList := by
  cases a; cases b; rfl

theorem strMk_toList (s : String) : String.mk s.toList = s := by
  cases s; rfl

theorem loadTp_skip (bad : String × List PyVal) (hbad : parseEntry bad = none) :
    ∀ (pre post : List (String × List PyVal)) (acc : LMap),
      loadTp (pre ++ bad :: post) acc = loadTp (pre ++ post) acc := by
  intro pre
  induction pre with
  | nil =>
    intro post acc
    simp [loadTp, hbad]
  | cons e pre' ih =>
    intro post acc
    simp only [List.cons_append, loadTp]
    exact ih post _

theorem lookup_loadTp (k : LKey) (v : List ℚ) (hv : v ≠ []) :
    ∀ (file : List (String × List PyVal)) (acc : LMap),
      (∀ e ∈ file, ∀ w, parseEntry e = some (k, w) → w = v) →
      ((∃ e ∈ file, parseEntry e = some (k, v)) ∨ lookupKey acc k = some v) →
      lookupKey (loadTp file acc) k = some v := by
  intro file
  induction file with
  | nil =>
    intro acc _ hd
    rcases hd with ⟨e, he, _⟩ | h
    · exact absurd he (List.not_mem_nil e)
    · simpa [loadTp] using h
  | cons e rest ih =>
    intro acc hall hd
    simp only [loadTp]
    apply ih
    · intro e' he' w hw
      exact hall e' (List.mem_cons_of_mem _ he') w hw
    · cases hpe : parseEntry e with
      | none =>
        rcases hd with ⟨e', he', hp'⟩ | hacc
        · rcases List.mem_cons.mp he' with rfl | hmem
          · rw [hpe] at hp'; cases hp'
          · left; exact ⟨e', hmem, hp'⟩
        · right; simpa [hpe] using hacc
      | some kv =>
        obtain ⟨k', vals⟩ := kv
        by_cases hkk : k' = k
        · subst hkk
          have hweq : vals = v := hall e (List.mem_cons_self e rest) vals hpe
          subst hweq
          right
          simp only [hpe]
          rw [if_pos hv]
          exact lookup_setKey_self acc k' vals
        · rcases hd with ⟨e', he', hp'⟩ | hacc
          · rcases List.mem_cons.mp he' with rfl | hmem
            · rw [hpe] at hp'
              exact absurd (congrArg Prod.fst (Option.some.inj hp')) hkk
            · left; exact ⟨e', hmem, hp'⟩
          · right
            simp only [hpe]
            by_cases hne : vals ≠ []
            · rw [if_pos hne, lookup_setKey_ne acc k' k vals (fun hh => hkk hh.symm)]
              exact hacc
            · rw [if_neg hne]
              exact hacc

theorem parseEntry_saved (sym dir : String) (vals : List ℚ)
    (hsym : '|' ∉ sym.toList) :
    parseEntry (sym ++ "|" ++ dir, vals.map PyVal.num) = some ((sym, dir), vals) := by
  have htl : (sym ++ "|" ++ dir).toList = sym.toList ++ '|' :: dir.toList := by
    rw [strCat_toList, strCat_toList, List.append_assoc]
    rfl
  rw [parseEntry]
  simp only [htl, splitBar_append sym.toList dir.toList hsym, traverseFloats_num,
    strMk_toList]

/-- C9: for a bar-free symbol/direction key and a non-empty take-profit
list, recording stores the sorted de-duplicated ladder under the key,
the persisted file reloads to a map where the key yields that same list,
and a corrupt (unparseable) entry anywhere in the file is skipped without
affecting the rest of the load. -/
theorem c9_tp_ladder_roundtrip (m m0 : LMap) (sym dir : String) (tps : List ℚ)
    (hsym : '|' ∉ sym.toList) (hdir : '|' ∉ dir.toList)
    (htps : tps ≠ []) (hnd : (m.map Prod.fst).Nodup) :
    lookupKey (recordLadder m sym dir tps) (sym, dir) = some (sortDedup tps) ∧
    lookupKey (loadTp (numFile (saveTp (recordLadder m sym dir tps))) m0) (sym, dir) =
      some (sortDedup tps) ∧
    (∀ (pre post : List (String × List PyVal)) (bad : String × List PyVal) (acc : LMap),
      parseEntry bad = none →
      loadTp (pre ++ bad :: post) acc = loadTp (pre ++ post) acc) := by
  refine ⟨lookup_setKey_self m (sym, dir) (sortDedup tps), ?_,
    fun pre post bad acc hbad => loadTp_skip bad hbad pre post acc⟩
  have hsd : sortDedup tps ≠ [] := sortDedup_ne_nil tps htps
  apply lookup_loadTp (sym, dir) (sortDedup tps) hsd
  · -- every persisted entry that parses to our key carries the recorded value
    intro e he w hw
    obtain ⟨e0, he0, hfe⟩ := List.mem_map.mp he
    obtain ⟨entry, hentry, hge⟩ := List.mem_filterMap.mp he0
    by_cases hne : entry.2 ≠ []
    · rw [if_pos hne] at hge
      have hee := Option.some.inj hge
      have he1 : e0.1 = entry.1.1 ++ "|" ++ entry.1.2 := (congrArg Prod.fst hee).symm
      have he2 : e0.2 = entry.2 := (congrArg Prod.snd hee).symm
      have hef : e = (e0.1, e0.2.map PyVal.num) := hfe.symm
      rw [hef, he1, he2] at hw
      -- now analyse parseEntry on the structured key
      rw [parseEntry] at hw
      have htl : (entry.1.1 ++ "|" ++ entry.1.2).toList
          = entry.1.1.toList ++ '|' :: entry.1.2.toList := by
        rw [strCat_toList, strCat_toList, List.append_assoc]
        rfl
      rw [htl] at hw
      cases hs : splitBarL (entry.1.1.toList ++ '|' :: entry.1.2.toList) with
      | none => rw [hs] at hw; cases hw
      | some p =>
        obtain ⟨a, b⟩ := p
        rw [hs, traverseFloats_num] at hw
        obtain ⟨hl, hna⟩ := splitBar_sound _ a b hs
        have hww := Option.some.inj hw
        have hk : ((String.mk a, String.mk b) : LKey) = (sym, dir) := congrArg Prod.fst hww
        have hvv : entry.2 = w := congrArg Prod.snd hww
        have hka : String.mk a = sym := congrArg Prod.fst hk
        have hkb : String.mk b = dir := congrArg Prod.snd hk
        have hadata : a = sym.toList := congrArg String.toList hka
        have hbdata : b = dir.toList := congrArg String.toList hkb
        rw [hadata, hbdata] at hl
        obtain ⟨h1, h2⟩ := bar_split_unique sym.toList entry.1.1.toList entry.1.2.toList
          dir.toList hl hsym hdir
        have hkey : entry.1 = (sym, dir) := by
          have e1 : entry.1.1 = sym := by
            have := congrArg String.mk h1
            rwa [strMk_toList, strMk_toList] at this
          have e2 : entry.1.2 = dir := by
            have := congrArg String.mk h2
            rwa [strMk_toList, strMk_toList] at this
          rw [← e1, ← e2]
        -- entry ∈ setKey m (sym,dir) (sortDedup tps) with key (sym,dir) → value is sortDedup tps
        have hmem2 : ((sym, dir), entry.2) ∈ setKey m (sym, dir) (sortDedup tps) := by
          have : entry = ((sym, dir), entry.2) := by
            rw [← hkey]
          rw [← this]
          exact hentry
        have := setKey_mem_value m (sym, dir) (sortDedup tps) hnd entry.2 hmem2
        rw [← hvv, this]
    · rw [if_neg hne] at hge
      cases hge
  · -- the freshly recorded entry is persisted and parses back
    left
    refine ⟨(sym ++ "|" ++ dir, (sortDedup tps).map PyVal.num), ?_, ?_⟩
    · apply List.mem_map.mpr
      refine ⟨(sym ++ "|" ++ dir, sortDedup tps), ?_, rfl⟩
      apply List.mem_filterMap.mpr
      refine ⟨((sym, dir), sortDedup tps), mem_setKey_self m (sym, dir) (sortDedup tps), ?_⟩
      rw [if_pos hsd]
    · exact parseEntry_saved sym dir (sortDedup tps) hsym

/-- C9 counterexample: the claim fails for a key that is not bar-free.
A symbol containing the serialization separator makes the persisted key
ambiguous: recording under symbol A|B, saving and reloading loses the
entry (it reloads under (A, B|BUY) instead). -/
theorem c9_counterexample :
    lookupKey (loadTp (numFile (saveTp (recordLadder [] "A|B" "BUY" [1]))) [])
      ("A|B", "BUY") = none := by
  decide

/-- C9 witness: a concrete bar-free round-trip, with deduplication. -/
theorem c9_witness :
    ('|' ∉ ("XAUUSD").toList) ∧
    lookupKey
      (loadTp (numFile (saveTp (recordLadder [] "XAUUSD" "BUY" [3470, 3465, 3465]))) [])
      ("XAUUSD", "BUY") = some [3465, 3470] := by
  constructor
  · decide
  · have h := (c9_tp_ladder_roundtrip [] [] "XAUUSD" "BUY" [3470, 3465, 3465]
      (by decide) (by decide) (by decide) (by decide)).2.1
    rw [h]
    rfl

/-! ## Message-handler ladder recording (C10) -/

theorem lookup_setKey_self2 (m : LMap) (k : LKey) (v : List ℚ) :
    lookupKey (setKey m k v) k = some v := by
  induction m with
  | nil => simp [setKey, lookupKey, List.find?]
  | cons e rest ih =>
    obtain ⟨k', v'⟩ := e
    by_cases h : k' = k
    · subst h
      simp [setKey, lookupKey, List.find?]
    · simp only [setKey, if_neg h]
      simpa [lookupKey, List.find?, h] using ih

theorem lookup_setKey_ne2 (m : LMap) (k q : LKey) (v : List ℚ) (h : q ≠ k) :
    lookupKey (setKey m k v) q = lookupKey m q := by
  have hkq : k ≠ q := fun hh => h hh.symm
  induction m with
  | nil => simp [setKey, lookupKey, List.find?, hkq]
  | cons e rest ih =>
    obtain ⟨k', v'⟩ := e
    by_cases hk : k' = k
    · subst hk
      simp [setKey, lookupKey, List.find?, hkq]
    · simp only [setKey, if_neg hk]
      by_cases hq : k' = q
      · simp [lookupKey, List.find?, hq]
      · simpa [lookupKey, List.find?, hq] using ih

theorem lookup_setKey_of_lookup (m : LMap) (k q : LKey) (v : List ℚ)
    (h : lookupKey m q = some v) : lookupKey (setKey m k v) q = some v := by
  by_cases hq : q = k
  · subst hq; exact lookup_setKey_self2 m q v
  · rw [lookup_setKey_ne2 m k q v hq]; exact h

/-- C10: a message that is not `/getid`, whose first token is not a
recognized operator command (an unrecognized `/`-token falls through),
that matches neither flexible format and
parses as a zone signal with at least one numeric take-profit leaves the
ladder map holding the sorted de-duplicated numeric levels under the
uppercased signal symbol, additionally under symbol+suffix when a suffix
is configured, and (when auto-place is on) under the broker-resolved
symbol the trailing engine will later look up; the first two writes
happen whether or not auto-place is enabled. -/
theorem c10_handler_records (venue : String → Bool) (suffix defaultSym : String)
    (autoPlace : Bool) (m : LMap) (text : String) (sig : ParsedSignal)
    (h0 : pyStartsWith (pyStrip text.toList) ("/getid".toList) = false)
    (h1 : ((((splitWsAux (pyStrip text.toList) []).filter
        (fun p => p ≠ [])).head?.map
        (fun p => pyStartsWith p [ '/' ] && recognizedCmd (String.mk (pyLower p)))).getD
        false) = false)
    (h2 : parseFlexible1 (String.mk (pyStrip text.toList)) = none)
    (h3 : parseFlexible2 (String.mk (pyStrip text.toList)) = none)
    (h4 : parseSignal (String.mk (pyStrip text.toList)) = some sig)
    (h5 : sortDedup (sig.take_profits.filterMap id) ≠ []) :
    lookupKey (handleMessageLadders venue suffix defaultSym autoPlace m text)
        (pyUpper sig.symbol, sig.direction)
      = some (sortDedup (sig.take_profits.filterMap id)) ∧
    (suffix ≠ "" →
      lookupKey (handleMessageLadders venue suffix defaultSym autoPlace m text)
          (pyUpper sig.symbol ++ suffix, sig.direction)
        = some (sortDedup (sig.take_profits.filterMap id))) ∧
    (autoPlace = true →
      lookupKey (handleMessageLadders venue suffix defaultSym autoPlace m text)
          (resolveSymbol venue suffix defaultSym sig.symbol, sig.direction)
        = some (sortDedup (sig.take_profits.filterMap id))) := by
  have hnp : sig.take_profits.filterMap id ≠ [] := by
    intro hh
    rw [hh] at h5
    exact h5 rfl
  by_cases hs : suffix = "" <;> by_cases ha : autoPlace = true
  · have hmsg : handleMessageLadders venue suffix defaultSym autoPlace m text
        = setKey (setKey m (pyUpper sig.symbol, sig.direction)
            (sortDedup (sig.take_profits.filterMap id)))
            (resolveSymbol venue suffix defaultSym sig.symbol, sig.direction)
            (sortDedup (sig.take_profits.filterMap id)) := by
      simp only [handleMessageLadders]
      rw [h0, h1, h2, h3, h4]
      simp [hs, ha, h5, hnp, placeOrdersLadderEffect, recordLadder]
    rw [hmsg]
    exact ⟨lookup_setKey_of_lookup _ _ _ _ (lookup_setKey_self2 _ _ _),
      fun hc => absurd hs hc, fun _ => lookup_setKey_self2 _ _ _⟩
  · have hmsg : handleMessageLadders venue suffix defaultSym autoPlace m text
        = setKey m (pyUpper sig.symbol, sig.direction)
            (sortDedup (sig.take_profits.filterMap id)) := by
      simp only [handleMessageLadders]
      rw [h0, h1, h2, h3, h4]
      simp [hs, ha, h5, hnp]
    rw [hmsg]
    exact ⟨lookup_setKey_self2 _ _ _, fun hc => absurd hs hc, fun hc => absurd hc ha⟩
  · have hmsg : handleMessageLadders venue suffix defaultSym autoPlace m text
        = setKey (setKey (setKey m (pyUpper sig.symbol, sig.direction)
              (sortDedup (sig.take_profits.filterMap id)))
            (pyUpper sig.symbol ++ suffix, sig.direction)
            (sortDedup (sig.take_profits.filterMap id)))
            (resolveSymbol venue suffix defaultSym sig.symbol, sig.direction)
            (sortDedup (sig.take_profits.filterMap id)) := by
      simp only [handleMessageLadders]
      rw [h0, h1, h2, h3, h4]
      simp [hs, ha, h5, hnp, placeOrdersLadderEffect, recordLadder]
    rw [hmsg]
    exact ⟨lookup_setKey_of_lookup _ _ _ _
        (lookup_setKey_of_lookup _ _ _ _ (lookup_setKey_self2 _ _ _)),
      fun _ => lookup_setKey_of_lookup _ _ _ _ (lookup_setKey_self2 _ _ _),
      fun _ => lookup_setKey_self2 _ _ _⟩
  · have hmsg : handleMessageLadders venue suffix defaultSym autoPlace m text
        = setKey (setKey m (pyUpper sig.symbol, sig.direction)
            (sortDedup (sig.take_profits.filterMap id)))
            (pyUpper sig.symbol ++ suffix, sig.direction)
            (sortDedup (sig.take_profits.filterMap id)) := by
      simp only [handleMessageLadders]
      rw [h0, h1, h2, h3, h4]
      simp [hs, ha, h5, hnp]
    rw [hmsg]
    exact ⟨lookup_setKey_of_lookup _ _ _ _ (lookup_setKey_self2 _ _ _),
      fun _ => lookup_setKey_self2 _ _ _, fun hc => absurd hc ha⟩

/-- C10 witness: the scenario text behind an unrecognized `/foo` command
token, on a venue recognizing only the suffixed symbol, suffix m,
auto-place on: the message falls through the command block and the ladder
is found under the broker-style key XAUUSDm. -/
theorem c10_witness :
    lookupKey
        (handleMessageLadders (fun s => s = "XAUUSDm") "m" "XAUUSD" true [] c10text)
        ("XAUUSDm", "BUY")
      = some [3465, 3470] := by
  have h := (c10_handler_records (fun s => s = "XAUUSDm") "m" "XAUUSD" true [] c10text c10sig
    (by decide) (by decide) (by decide) (by decide) (by decide) (by decide)).2.1 (by decide)
  exact h
